import Mathlib

/-
Verification development for the comparativeAnnotator detection engine.

The definitions below are a shallow embedding of the indel / frameshift /
codon / splice analysis primitives of lib/comp_ann_lib.py and of the
classifier rules of src/classifiers.py.  Coordinates are modelled as Int,
coordinate conversions of the external geometry collaborator are function
fields returning Option (the no-mapping sentinel of the translator
contract), and Python generators are modelled as functions producing
lists; code that can raise an exception is modelled with Except or Option.
-/

set_option maxRecDepth 8000

/-- A yielded indel / frameshift record: (start, stop, signed size). -/
abbrev Trip := Int × Int × Int

/-- Alignment (PslRow) between reference-transcript (query) coordinates and
target-chromosome coordinates.  Lookups return none where the requested
position falls in a gap on the opposite side. -/
structure Aln where
  query_coordinate_to_target : Int → Option Int
  target_coordinate_to_query : Int → Option Int

/-- Genomic interval together with the sequence the external geometry
collaborator would fetch for it (get_sequence folded into a field). -/
structure GInterval where
  start : Int
  stop : Int
  seq : List Char
deriving DecidableEq

/-- Reference (annotation) transcript a.  Conversion fields return none as
the no-mapping sentinel outside the feature; get_cds holds the coding
sequence as fetched from the reference sequence dictionary, so that
getCdsLength coincides with the length of get_cds. -/
structure Annot where
  exon_starts : List Nat
  len : Nat
  strand : Bool
  exonFrames : List Int
  get_cds : List Char
  cds_coordinate_to_transcript : Nat → Option Int
  transcript_coordinate_to_chromosome : Int → Option Int
  intronIntervals : List GInterval

/-- Length of the reference coding region. -/
def Annot.getCdsLength (a : Annot) : Nat := a.get_cds.length

/-- Target (lifted-over) transcript t. -/
structure Tgt where
  len : Nat
  strand : Bool
  thickStart : Int
  thickStop : Int
  transcript_coordinate_to_chromosome : Nat → Int
  chromosome_coordinate_to_cds : Int → Option Nat
  get_cds : List Char
  get_mrna : List Char
  intronIntervals : List GInterval

/-- Length of the target coding region. -/
def Tgt.getCdsLength (t : Tgt) : Nat := t.get_cds.length

/-- Emission guard shared by the indel iterators: the mult3 argument of
True / False / None restricts output to multiples of 3, to non-multiples,
or keeps everything (the if / elif / elif chain of the source). -/
def mult3Emit (mult3 : Option Bool) (size : Int) (trip : Trip) : List Trip :=
  if mult3 = some true ∧ size % 3 = 0 then [trip]
  else if mult3 = some false ∧ size % 3 ≠ 0 then [trip]
  else if mult3 = none then [trip]
  else []

/-- One step of insertion_iterator's loop over query (reference transcript)
positions; the state is (prev_target_i, emitted triples). -/
def insStep (es : List Nat) (qmap : Int → Option Int) (mult3 : Option Bool)
    (st : Option Int × List Trip) (query_i : Nat) : Option Int × List Trip :=
  if query_i ∈ es then (none, st.2)
  else
    match qmap (query_i : Int) with
    | none => (none, st.2)
    | some target_i =>
      match st.1 with
      | none => (some target_i, st.2)
      | some prev =>
        if (target_i - prev).natAbs ≠ 1 then
          let insert_size : Int := ((target_i - prev).natAbs : Int) - 1
          let start := min prev target_i + 1
          let stop := max prev target_i
          (some target_i, st.2 ++ mult3Emit mult3 insert_size (start, stop, insert_size))
        else (some target_i, st.2)

/-- insertion_iterator of lib/comp_ann_lib.py: walk every reference
transcript position, skip exon starts and unmapped positions, and report a
jump of the mapped target coordinate as an insertion. -/
def insertion_iterator (a : Annot) (t : Tgt) (aln : Aln) (mult3 : Option Bool) : List Trip :=
  ((List.range a.len).foldl (insStep a.exon_starts aln.query_coordinate_to_target mult3)
    (none, [])).2

/-- One step of deletion_iterator's loop over target transcript positions;
the state is (prev_query_i, emitted triples). -/
def delStep (tchrom : Nat → Int) (tmap : Int → Option Int) (strand : Bool)
    (mult3 : Option Bool) (st : Option Int × List Trip) (target_i : Nat) :
    Option Int × List Trip :=
  let target_chrom_i := tchrom target_i
  match tmap target_chrom_i with
  | none => (none, st.2)
  | some query_i =>
    match st.1 with
    | none => (some query_i, st.2)
    | some prev =>
      if (query_i - prev).natAbs ≠ 1 then
        let delete_size : Int := ((query_i - prev).natAbs : Int) - 1
        let start := if strand then target_chrom_i - 1 else target_chrom_i + 1
        (some query_i, st.2 ++ mult3Emit mult3 delete_size (start, start, -delete_size))
      else (some query_i, st.2)

/-- deletion_iterator of lib/comp_ann_lib.py: walk every target transcript
position, map back to the query through the alignment, and report a jump of
the query coordinate as a deletion anchored at a single flanking target
chromosome base (strand aware); the span is stored negated. -/
def deletion_iterator (a : Annot) (t : Tgt) (aln : Aln) (mult3 : Option Bool) : List Trip :=
  ((List.range t.len).foldl
    (delStep t.transcript_coordinate_to_chromosome aln.target_coordinate_to_query
      t.strand mult3) (none, [])).2

/-- Python tuple comparison on (start, stop, size): lexicographic order,
used by the sorted call of frame_shift_iterator. -/
def tripLe (p q : Trip) : Bool :=
  decide (p.1 < q.1) || (decide (p.1 = q.1) &&
    (decide (p.2.1 < q.2.1) || (decide (p.2.1 = q.2.1) && decide (p.2.2 ≤ q.2.2))))

/-- Insert into a list already sorted by tripLe, keeping it sorted. -/
def sortedInsert (x : Trip) : List Trip → List Trip
  | [] => [x]
  | y :: ys => if tripLe x y then x :: y :: ys else y :: sortedInsert x ys

/-- Translation of Python's sorted on lists of int triples.  tripLe is a
total order (full lexicographic comparison), so the sorted permutation is
unique and any correct sorting algorithm yields it. -/
def sortTrips : List Trip → List Trip
  | [] => []
  | x :: xs => sortedInsert x (sortTrips xs)

/-- One step of the overlap-merging loop of frame_shift_iterator.  The
accumulator holds the merged list reversed, so its head is merged[-1]:
when the next (higher) triple starts at or before the stop of the last
merged (lower) triple, the two are fused, extending the stop and summing
the signed spans. -/
def mergeStep (acc : List Trip) (higher : Trip) : List Trip :=
  match acc with
  | [] => [higher]
  | lower :: rest =>
    if higher.1 ≤ lower.2.1 then
      (lower.1, max lower.2.1 higher.2.1, lower.2.2 + higher.2.2) :: rest
    else higher :: lower :: rest

/-- frame_shift_iterator of lib/comp_ann_lib.py: the non-multiple-of-3
deletions and insertions are sorted, overlap-merged, filtered to spans
whose merged total still breaks frame, order/role-reversed on the minus
strand, and finally restricted by the start / stop bounds of the coding
region check of the source. -/
def frame_shift_iterator (a : Annot) (t : Tgt) (aln : Aln) : List Trip :=
  let deletions := deletion_iterator a t aln (some false)
  let insertions := insertion_iterator a t aln (some false)
  let merged := ((sortTrips (deletions ++ insertions)).foldl mergeStep []).reverse
  let merged2 :=
    if t.strand = false then
      ((merged.reverse).filter (fun p => decide (p.2.2 % 3 ≠ 0))).map
        (fun p => (p.2.1, p.1, p.2.2))
    else merged.filter (fun p => decide (p.2.2 % 3 ≠ 0))
  merged2.filter (fun p => decide (t.thickStart ≤ p.1) && decide (p.2.1 < t.thickStop))

/-- The coordinate chain used by codon_pair_iterator, BeginStart and
EndStop: reference CDS position to reference transcript position, through
the alignment to the target chromosome, then into the target CDS.  The
conversion functions of the external sequence library propagate the
None sentinel, which Option.bind models. -/
def chainPos (a : Annot) (t : Tgt) (aln : Aln) (i : Nat) : Option Nat :=
  ((a.cds_coordinate_to_transcript i).bind aln.query_coordinate_to_target).bind
    t.chromosome_coordinate_to_cds

/-- Message of a Python AssertionError. -/
def assertMsg : String := "AssertionError"

/-- Message of a Python IndexError. -/
def indexErrMsg : String := "IndexError"

/-- Body of codon_pair_iterator's loop over codon start offsets.  A triple
with an unmapped position is skipped; a fully mapped triple whose target
CDS positions are not exactly consecutive fires the assert of the source,
aborting the iteration with an error. -/
def cpGo (p : Nat → Option Nat) (tcds qcds : List Char) :
    List Nat → Except String (List (Nat × List Char × List Char))
  | [] => Except.ok []
  | i :: rest =>
    match p i, p (i + 1), p (i + 2) with
    | some p0, some p1, some p2 =>
      if p2 = p1 + 1 ∧ p1 = p0 + 1 ∧ p2 = p0 + 2 then
        match cpGo p tcds qcds rest with
        | Except.error e => Except.error e
        | Except.ok tail =>
          Except.ok ((p0, (tcds.drop p0).take 3, (qcds.drop i).take 3) :: tail)
      else Except.error assertMsg
    | _, _, _ => cpGo p tcds qcds rest

/-- Python range(start, stop, 3) on nonnegative bounds. -/
def pythonRange3 (start stop : Nat) : List Nat :=
  List.range' start ((stop - start + 2) / 3) 3

/-- codon_pair_iterator of lib/comp_ann_lib.py: determine the reading
frame offset from the first (plus strand) or last (minus strand) coding
exon frame, then walk the reference CDS three bases at a time, mapping
each base through chainPos; yields (target cds offset, target codon,
query codon).  An empty coding frame list raises IndexError in the
source; valid frames are 0..2 so the offset is nonnegative. -/
def codon_pair_iterator (a : Annot) (t : Tgt) (aln : Aln) :
    Except String (List (Nat × List Char × List Char)) :=
  match a.exonFrames.filter (fun x => x != -1) with
  | [] => Except.error indexErrMsg
  | f0 :: rest =>
    let a_offset : Int := if a.strand then f0 else 3 - (f0 :: rest).getLast (by simp)
    cpGo (chainPos a t aln) t.get_cds a.get_cds (pythonRange3 a_offset.toNat a.getCdsLength)

/-- compare_intron_to_reference of lib/comp_ann_lib.py.  The first mapped
boundary is immediately incremented, so a failed start-1 mapping raises a
TypeError (modelled as none) before the None test of the source can run;
a failed stop mapping reaches that test and returns False.  Afterwards the
reference introns are scanned for one matching the (twice incremented)
start and the stop, and True is returned when such an intron's
donor / acceptor pair itself violates the given motif dictionary. -/
def compare_intron_to_reference (intron : GInterval) (a : Annot) (aln : Aln)
    (compare_dict : List (List Char × List Char)) : Option Bool :=
  match ((aln.target_coordinate_to_query (intron.start - 1)).bind
      a.transcript_coordinate_to_chromosome) with
  | none => none
  | some v =>
    let a_start := v + 1
    match ((aln.target_coordinate_to_query intron.stop).bind
        a.transcript_coordinate_to_chromosome) with
    | none => some false
    | some a_stop =>
      let a_start := a_start + 1
      some (a.intronIntervals.any (fun ai =>
        decide (ai.start = a_start) && decide (ai.stop = a_stop) &&
          (let donor := ai.seq.take 2
           let acceptor := ai.seq.drop (ai.seq.length - 2)
           match compare_dict.lookup donor with
           | none => true
           | some req => req != acceptor)))

/-- Modelled from the spec: the standard codon to amino-acid translation
provided by the external sequence library (seq_lib.codon_to_amino_acid,
used by InFrameStop / Nonsynonymous / Synonymous); the three stop codons
TAA, TGA, TAG translate to the star character.  Codons outside the table
(e.g. containing unknown bases) map to a question mark. -/
def codon_to_amino_acid (c : List Char) : Char :=
  match c with
  | ['T','T','T'] | ['T','T','C'] => 'F'
  | ['T','T','A'] | ['T','T','G'] | ['C','T','T'] | ['C','T','C']
  | ['C','T','A'] | ['C','T','G'] => 'L'
  | ['A','T','T'] | ['A','T','C'] | ['A','T','A'] => 'I'
  | ['A','T','G'] => 'M'
  | ['G','T','T'] | ['G','T','C'] | ['G','T','A'] | ['G','T','G'] => 'V'
  | ['T','C','T'] | ['T','C','C'] | ['T','C','A'] | ['T','C','G']
  | ['A','G','T'] | ['A','G','C'] => 'S'
  | ['C','C','T'] | ['C','C','C'] | ['C','C','A'] | ['C','C','G'] => 'P'
  | ['A','C','T'] | ['A','C','C'] | ['A','C','A'] | ['A','C','G'] => 'T'
  | ['G','C','T'] | ['G','C','C'] | ['G','C','A'] | ['G','C','G'] => 'A'
  | ['T','A','T'] | ['T','A','C'] => 'Y'
  | ['T','A','A'] | ['T','G','A'] | ['T','A','G'] => '*'
  | ['C','A','T'] | ['C','A','C'] => 'H'
  | ['C','A','A'] | ['C','A','G'] => 'Q'
  | ['A','A','T'] | ['A','A','C'] => 'N'
  | ['A','A','A'] | ['A','A','G'] => 'K'
  | ['G','A','T'] | ['G','A','C'] => 'D'
  | ['G','A','A'] | ['G','A','G'] => 'E'
  | ['T','G','T'] | ['T','G','C'] => 'C'
  | ['T','G','G'] => 'W'
  | ['C','G','T'] | ['C','G','C'] | ['C','G','A'] | ['C','G','G']
  | ['A','G','A'] | ['A','G','G'] => 'R'
  | ['G','G','T'] | ['G','G','C'] | ['G','G','A'] | ['G','G','G'] => 'G'
  | _ => '?'

/-- Canonical start codon ATG. -/
def cATG : List Char := ['A', 'T', 'G']

/-- The canonical stop codon set of BeginStart / EndStop. -/
def stopCodonsL : List (List Char) := [['T','A','A'], ['T','G','A'], ['T','A','G']]

/-- Canonical splice motif dictionary of the CdsNonCanonSplice classifier. -/
def canonicalGT : List (List Char × List Char) := [(['G','T'], ['A','G'])]

/-- Color category keys of the AbstractClassifier palette. -/
def cMutation : String := "mutation"

/-- Color category key for informational evidence already present in the reference. -/
def cInput : String := "input"

/-- Color category key of alignment-induced defects. -/
def cAlignment : String := "alignment"

/-- Color category key of generic defects. -/
def cGeneric : String := "generic"

/-- Color category key of assembly defects. -/
def cAssembly : String := "assembly"

/-- Color category key of nonsynonymous substitutions. -/
def cNonsynon : String := "nonsynon"

/-- Color category key of synonymous substitutions. -/
def cSynon : String := "synon"

/-- Modelled from the spec: the palette of the external AbstractClassifier
maps each defect category key to a fixed color; the structured category key
itself serves as the color tag here (section 6 of the design: a
classification, not a rendering concern). -/
def colors (category : String) : String := category

/-- Modelled from the spec: an evidence record (BED feature) produced by the
external seq_lib bed builders, reduced to the interval handed to the
builder at the call site and the color tag. -/
structure Bed where
  start : Int
  stop : Int
  color : String
deriving DecidableEq

/-- Build an evidence record. -/
def mkBed (start stop : Int) (color : String) : Bed := ⟨start, stop, color⟩

/-- The read-only input dictionaries shared by all classifier rules:
the alignment dictionary and target transcript dictionary as association
lists in iteration order, plus the total lookups annotOf (the annotation
dictionary composed with remove_alignment_number) and alnOf (direct
indexing of the alignment dictionary). -/
structure Dicts where
  alignmentItems : List (String × Aln)
  transcriptItems : List (String × Tgt)
  annotOf : String → Annot
  alnOf : String → Aln

/-- Shared rule driver: iterate the items of a dictionary, appending each
item's classify entries and details entries (dumpValueDicts returns the two
accumulated maps). -/
def runPure {τ β γ : Type} (items : List (String × τ))
    (per : String × τ → List (String × β) × List (String × γ)) :
    List (String × β) × List (String × γ) :=
  items.foldl (fun acc x => (acc.1 ++ (per x).1, acc.2 ++ (per x).2)) ([], [])

/-- Shared rule driver for rules whose body can raise (an assert inside an
iterator aborts the whole run, as an uncaught Python exception would). -/
def runExc {τ β γ : Type} (items : List (String × τ))
    (per : String × τ → Except String (List (String × β) × List (String × γ))) :
    Except String (List (String × β) × List (String × γ)) :=
  items.foldlM (fun acc x =>
    match per x with
    | Except.error e => Except.error e
    | Except.ok r => Except.ok (acc.1 ++ r.1, acc.2 ++ r.2)) ([], [])

/-- Per-alignment body of CodingInsertions.run (mult3 False) and
CodingMult3Insertions.run (mult3 True): skip ids absent from the transcript
dictionary, apply the 75-base CDS length gate, then report the insertions
that fall inside the coding region. -/
def codingInsertions_per (D : Dicts) (mult3 : Option Bool) (x : String × Aln) :
    List (String × Nat) × List (String × List Bed) :=
  match D.transcriptItems.lookup x.1 with
  | none => ([], [])
  | some t =>
    let a := D.annotOf x.1
    if a.getCdsLength ≤ 75 ∨ t.getCdsLength ≤ 75 then ([], [])
    else
      let ins := ((insertion_iterator a t x.2 mult3).filter
          (fun q => decide (t.thickStart ≤ q.1) && decide (q.2.1 < t.thickStop))).map
        (fun q => mkBed q.1 q.2.1 (colors cMutation))
      if 0 < ins.length then ([(x.1, 1)], [(x.1, ins)]) else ([(x.1, 0)], [])

/-- CodingInsertions.run over the alignment dictionary. -/
def codingInsertions_run (D : Dicts) (mult3 : Option Bool) :
    List (String × Nat) × List (String × List Bed) :=
  runPure D.alignmentItems (codingInsertions_per D mult3)

/-- Per-alignment body of CodingDeletions.run / CodingMult3Deletions.run. -/
def codingDeletions_per (D : Dicts) (mult3 : Option Bool) (x : String × Aln) :
    List (String × Nat) × List (String × List Bed) :=
  match D.transcriptItems.lookup x.1 with
  | none => ([], [])
  | some t =>
    let a := D.annotOf x.1
    if a.getCdsLength ≤ 75 ∨ t.getCdsLength ≤ 75 then ([], [])
    else
      let dels := ((deletion_iterator a t x.2 mult3).filter
          (fun q => decide (t.thickStart ≤ q.1) && decide (q.2.1 < t.thickStop))).map
        (fun q => mkBed q.1 q.2.1 (colors cMutation))
      if 0 < dels.length then ([(x.1, 1)], [(x.1, dels)]) else ([(x.1, 0)], [])

/-- CodingDeletions.run over the alignment dictionary. -/
def codingDeletions_run (D : Dicts) (mult3 : Option Bool) :
    List (String × Nat) × List (String × List Bed) :=
  runPure D.alignmentItems (codingDeletions_per D mult3)

/-- Per-alignment body of FrameShift.run: after the length gate, the merged
frameshift spans drive the cumulative-frame window computation; the sanity
assert of the source on the window counts aborts with an error when
violated.  A shift window closes where the cumulative frame returns to 0,
or at the coding region boundary (strand aware, swapping start / stop
roles on the minus strand). -/
def frameShift_per (D : Dicts) (x : String × Aln) :
    Except String (List (String × Nat) × List (String × List Bed)) :=
  match D.transcriptItems.lookup x.1 with
  | none => Except.ok ([], [])
  | some t =>
    let a := D.annotOf x.1
    if a.getCdsLength ≤ 75 ∨ t.getCdsLength ≤ 75 then Except.ok ([], [])
    else
      match frame_shift_iterator a t x.2 with
      | [] => Except.ok ([(x.1, 0)], [])
      | f0 :: fs =>
        let frame_shifts := f0 :: fs
        let indel_starts := frame_shifts.map (fun p => p.1)
        let indel_stops := frame_shifts.map (fun p => p.2.1)
        let spans := frame_shifts.map (fun p => p.2.2)
        let cumulative_frame := (spans.scanl (fun l v => l + v) 0).map (fun v => v % 3)
        let windowed_starts := ((indel_starts.zip cumulative_frame).filter
            (fun q => decide (q.2 = 0) || decide (q.1 = f0.1))).map (fun q => q.1)
        let windowed_stops := ((indel_stops.zip (cumulative_frame.drop 1)).filter
            (fun q => decide (q.2 = 0))).map (fun q => q.1)
        if ¬(windowed_starts.length = windowed_stops.length ∨
            (windowed_starts.length : Int) - 1 = (windowed_stops.length : Int)) then
          Except.error assertMsg
        else
          let pairs :=
            if windowed_stops.length < windowed_starts.length ∧ t.strand = false then
              (windowed_stops ++ [t.thickStart]).zip windowed_starts
            else if windowed_stops.length < windowed_starts.length then
              windowed_starts.zip (windowed_stops ++ [t.thickStop])
            else if t.strand = false then windowed_stops.zip windowed_starts
            else windowed_starts.zip windowed_stops
          let beds := pairs.map (fun q => mkBed q.1 q.2 (colors cMutation))
          Except.ok ([(x.1, 1)], if beds.isEmpty then [] else [(x.1, beds)])

/-- FrameShift.run over the alignment dictionary. -/
def frameShift_run (D : Dicts) :
    Except String (List (String × Nat) × List (String × List Bed)) :=
  runExc D.alignmentItems (frameShift_per D)

/-- The three mapped target CDS positions of the first codon, as built by
BeginStart.run. -/
def beginStart_positions (a : Annot) (t : Tgt) (aln : Aln) : List (Option Nat) :=
  [chainPos a t aln 0, chainPos a t aln 1, chainPos a t aln 2]

/-- Per-transcript body of BeginStart.run: call 1 when the first codon's
mapping fails or the first three target CDS bases are not ATG; on a failed
mapping the evidence always carries the rule's own color, while on a
successful mapping with a non-ATG target start the informational input
color is used exactly when the reference start is also not ATG. -/
def beginStart_per (D : Dicts) (x : String × Tgt) :
    List (String × Nat) × List (String × Bed) :=
  let a := D.annotOf x.1
  let t := x.2
  if a.getCdsLength ≤ 75 ∨ t.getCdsLength ≤ 75 then ([], [])
  else
    let ps := beginStart_positions a t (D.alnOf x.1)
    if none ∈ ps then ([(x.1, 1)], [(x.1, mkBed 0 3 (colors cGeneric))])
    else if t.get_cds.take 3 ≠ cATG then
      if a.get_cds.take 3 ≠ cATG then ([(x.1, 1)], [(x.1, mkBed 0 3 (colors cInput))])
      else ([(x.1, 1)], [(x.1, mkBed 0 3 (colors cGeneric))])
    else ([(x.1, 0)], [])

/-- BeginStart.run over the transcript dictionary. -/
def beginStart_run (D : Dicts) : List (String × Nat) × List (String × Bed) :=
  runPure D.transcriptItems (beginStart_per D)

/-- The three mapped target CDS positions probed by EndStop.run: the source
probes xrange(s - 4, s - 1), i.e. positions s-4, s-3 and s-2 with s the
target CDS length. -/
def endStop_positions (a : Annot) (t : Tgt) (aln : Aln) : List (Option Nat) :=
  [chainPos a t aln (t.getCdsLength - 4), chainPos a t aln (t.getCdsLength - 3),
    chainPos a t aln (t.getCdsLength - 2)]

/-- The last three bases of a coding sequence (Python slice [-3:]). -/
def lastThree (s : List Char) : List Char := s.drop (s.length - 3)

/-- Per-transcript body of EndStop.run: call 1 when one of the probed
positions fails to map or the last three target CDS bases are not a stop
codon; the informational input color is used exactly when the reference
CDS itself does not end in a stop codon. -/
def endStop_per (D : Dicts) (x : String × Tgt) :
    List (String × Nat) × List (String × Bed) :=
  let a := D.annotOf x.1
  let t := x.2
  if a.getCdsLength ≤ 75 ∨ t.getCdsLength ≤ 75 then ([], [])
  else
    let s := t.getCdsLength
    let ps := endStop_positions a t (D.alnOf x.1)
    if none ∈ ps ∨ lastThree t.get_cds ∉ stopCodonsL then
      let col := if lastThree a.get_cds ∉ stopCodonsL then colors cInput
        else colors cAlignment
      ([(x.1, 1)], [(x.1, mkBed ((s - 3 : Nat) : Int) (s : Int) col)])
    else ([(x.1, 0)], [])

/-- EndStop.run over the transcript dictionary. -/
def endStop_run (D : Dicts) : List (String × Nat) × List (String × Bed) :=
  runPure D.transcriptItems (endStop_per D)

/-- Per-transcript body of InFrameStop.run: the aligned codon pairs are
materialised and the last one is discarded (list slice [:-1]) before
scanning for stop codons; evidence is informational when the stop is
already present in the reference codon. -/
def inFrameStop_per (D : Dicts) (x : String × Tgt) :
    Except String (List (String × Nat) × List (String × List Bed)) :=
  let a := D.annotOf x.1
  let t := x.2
  if a.getCdsLength ≤ 75 ∨ t.getCdsLength ≤ 75 then Except.ok ([], [])
  else
    match codon_pair_iterator a t (D.alnOf x.1) with
    | Except.error e => Except.error e
    | Except.ok l =>
      let hits := l.dropLast.filter (fun c => codon_to_amino_acid c.2.1 == '*')
      let beds := hits.map (fun c => mkBed (c.1 : Int) ((c.1 : Int) + 3)
        (if c.2.1 = c.2.2 then colors cInput else colors cMutation))
      if 0 < hits.length then Except.ok ([(x.1, 1)], [(x.1, beds)])
      else Except.ok ([(x.1, 0)], [])

/-- InFrameStop.run over the transcript dictionary. -/
def inFrameStop_run (D : Dicts) :
    Except String (List (String × Nat) × List (String × List Bed)) :=
  runExc D.transcriptItems (inFrameStop_per D)

/-- Per-alignment body of Nonsynonymous.run: a codon pair counts when the
target codon has no unknown base, differs from the query codon, and
translates to a different amino acid. -/
def nonsynonymous_per (D : Dicts) (x : String × Aln) :
    Except String (List (String × Nat) × List (String × List Bed)) :=
  match D.transcriptItems.lookup x.1 with
  | none => Except.ok ([], [])
  | some t =>
    let a := D.annotOf x.1
    if a.getCdsLength ≤ 75 ∨ t.getCdsLength ≤ 75 then Except.ok ([], [])
    else
      match codon_pair_iterator a t x.2 with
      | Except.error e => Except.error e
      | Except.ok l =>
        let hits := l.filter (fun c => decide ('N' ∉ c.2.1) && decide (c.2.1 ≠ c.2.2) &&
          decide (codon_to_amino_acid c.2.1 ≠ codon_to_amino_acid c.2.2))
        let beds := hits.map (fun c => mkBed (c.1 : Int) ((c.1 : Int) + 3) (colors cNonsynon))
        if 0 < hits.length then Except.ok ([(x.1, 1)], [(x.1, beds)])
        else Except.ok ([(x.1, 0)], [])

/-- Nonsynonymous.run over the alignment dictionary. -/
def nonsynonymous_run (D : Dicts) :
    Except String (List (String × Nat) × List (String × List Bed)) :=
  runExc D.alignmentItems (nonsynonymous_per D)

/-- Per-alignment body of Synonymous.run: a codon pair counts when the
codons differ but translate to the same amino acid. -/
def synonymous_per (D : Dicts) (x : String × Aln) :
    Except String (List (String × Nat) × List (String × List Bed)) :=
  match D.transcriptItems.lookup x.1 with
  | none => Except.ok ([], [])
  | some t =>
    let a := D.annotOf x.1
    if a.getCdsLength ≤ 75 ∨ t.getCdsLength ≤ 75 then Except.ok ([], [])
    else
      match codon_pair_iterator a t x.2 with
      | Except.error e => Except.error e
      | Except.ok l =>
        let hits := l.filter (fun c => decide (c.2.1 ≠ c.2.2) &&
          decide (codon_to_amino_acid c.2.1 = codon_to_amino_acid c.2.2))
        let beds := hits.map (fun c => mkBed (c.1 : Int) ((c.1 : Int) + 3) (colors cSynon))
        if 0 < hits.length then Except.ok ([(x.1, 1)], [(x.1, beds)])
        else Except.ok ([(x.1, 0)], [])

/-- Synonymous.run over the alignment dictionary. -/
def synonymous_run (D : Dicts) :
    Except String (List (String × Nat) × List (String × List Bed)) :=
  runExc D.alignmentItems (synonymous_per D)

/-- Per-transcript body of CdsGap.run: an intron counts when it is shorter
than 30 bases, has no unknown base, and lies inside the coding region. -/
def cdsGap_per (x : String × Tgt) :
    List (String × Nat) × List (String × List Bed) :=
  let t := x.2
  let hits := t.intronIntervals.filter (fun i =>
    decide (¬(30 ≤ i.stop - i.start)) && decide ('N' ∉ i.seq) &&
      (decide (t.thickStart ≤ i.start) && decide (i.stop < t.thickStop)))
  if 0 < hits.length then
    ([(x.1, 1)], [(x.1, hits.map (fun i => mkBed i.start i.stop (colors cAlignment)))])
  else ([(x.1, 0)], [])

/-- CdsGap.run over the transcript dictionary. -/
def cdsGap_run (D : Dicts) : List (String × Nat) × List (String × List Bed) :=
  runPure D.transcriptItems cdsGap_per

/-- Per-transcript body of UnknownBases.run, parametric in the external
regular expression engine: finditer returns the (start, end) spans of the
maximal base-N-runs-between-real-bases matches in the scanned sequence. -/
def unknownBases_per (finditer : List Char → List (Nat × Nat)) (cds : Bool)
    (x : String × Tgt) : List (String × Nat) × List (String × List Bed) :=
  let t := x.2
  let s := if cds then t.get_cds else t.get_mrna
  let tmp := (finditer s).map (fun m => mkBed ((m.1 : Int) + 1) ((m.2 : Int) - 1)
    (colors cAssembly))
  if 0 < tmp.length then ([(x.1, 1)], [(x.1, tmp)]) else ([(x.1, 0)], [])

/-- UnknownBases.run over the transcript dictionary. -/
def unknownBases_run (D : Dicts) (finditer : List Char → List (Nat × Nat)) (cds : Bool) :
    List (String × Nat) × List (String × List Bed) :=
  runPure D.transcriptItems (unknownBases_per finditer cds)

/-- Merging step written from the spec's description (section 4.2): while
the next span starts at or before the stop of the current one, fuse them,
taking the larger stop and summing the signed sizes; otherwise emit the
current span and continue from the next. -/
def specMergeAux (cur : Trip) : List Trip → List Trip
  | [] => [cur]
  | y :: rest =>
    if y.1 ≤ cur.2.1 then specMergeAux (cur.1, max cur.2.1 y.2.1, cur.2.2 + y.2.2) rest
    else cur :: specMergeAux y rest

/-- Merge adjacent or overlapping spans of a sorted list, per the spec. -/
def specMerge : List Trip → List Trip
  | [] => []
  | x :: xs => specMergeAux x xs

/-- Drop merged spans whose total signed size is a multiple of 3, per the
spec: indels that individually broke frame but together restored it cancel
out. -/
def specDropMult3 (l : List Trip) : List Trip :=
  l.filter (fun p => decide (p.2.2 % 3 ≠ 0))

/-- Collect all non-multiple-of-3 insertions and deletions, per the spec. -/
def specNonMult3Indels (a : Annot) (t : Tgt) (aln : Aln) : List Trip :=
  deletion_iterator a t aln (some false) ++ insertion_iterator a t aln (some false)

/-- Strand orientation step, per the spec's frameshift merger description:
on minus-strand transcripts reverse both the order and the start / stop
roles of the merged list. -/
def specStrandOrient (strand : Bool) (l : List Trip) : List Trip :=
  if strand then l else l.reverse.map (fun p => (p.2.1, p.1, p.2.2))

/-- Final coding-region restriction as the source applies it: keep spans
whose first component is at least thickStart and whose second component is
below thickStop. -/
def specCdsFilter (t : Tgt) (l : List Trip) : List Trip :=
  l.filter (fun p => decide (t.thickStart ≤ p.1) && decide (p.2.1 < t.thickStop))

/-- The frameshift pipeline as the spec words it: collect the frame-breaking
indels, sort them (by start coordinate, ties resolved by the remaining
tuple components exactly as Python tuple comparison does), merge adjacent
or overlapping spans summing signed sizes, drop merged spans whose total
is a multiple of 3, orient by strand, and restrict to the coding region. -/
def specFrameshifts (a : Annot) (t : Tgt) (aln : Aln) : List Trip :=
  specCdsFilter t (specStrandOrient t.strand
    (specDropMult3 (specMerge (sortTrips (specNonMult3Indels a t aln)))))

/-- The call condition of BeginStart: the first codon's mapping fails or
the first three target CDS bases are not ATG. -/
def beginStart_cond (a : Annot) (t : Tgt) (aln : Aln) : Prop :=
  none ∈ beginStart_positions a t aln ∨ t.get_cds.take 3 ≠ cATG

/-- The evidence color BeginStart actually emits: the rule's own generic
color whenever the mapping fails, the informational input color only when
the mapping succeeds and both target and reference lack the ATG start. -/
def beginStart_evidence_color (a : Annot) (t : Tgt) (aln : Aln) : String :=
  if none ∈ beginStart_positions a t aln then colors cGeneric
  else if a.get_cds.take 3 ≠ cATG then colors cInput
  else colors cGeneric

/-- The call condition of EndStop: one of the probed positions (s-4..s-2,
s the target CDS length) fails to map or the last three target CDS bases
are not a stop codon. -/
def endStop_cond (a : Annot) (t : Tgt) (aln : Aln) : Prop :=
  none ∈ endStop_positions a t aln ∨ lastThree t.get_cds ∉ stopCodonsL

/-- The evidence color EndStop emits: input exactly when the reference CDS
itself does not end in a stop codon. -/
def endStop_evidence_color (a : Annot) : String :=
  if lastThree a.get_cds ∉ stopCodonsL then colors cInput else colors cAlignment

/-- Concrete reference transcript whose codon chain maps the second codon
to non-consecutive target positions. -/
def a2 : Annot where
  exon_starts := []
  len := 6
  strand := true
  exonFrames := [0]
  get_cds := ['A','T','G','G','G','G']
  cds_coordinate_to_transcript := fun j => if j < 6 then some (j : Int) else none
  transcript_coordinate_to_chromosome := fun _ => none
  intronIntervals := []

/-- Concrete alignment for a2: positions 4 and 5 jump over target gaps. -/
def aln2 : Aln where
  query_coordinate_to_target := fun i =>
    if i = 0 then some 0 else if i = 1 then some 1 else if i = 2 then some 2
    else if i = 3 then some 3 else if i = 4 then some 5 else if i = 5 then some 7
    else none
  target_coordinate_to_query := fun _ => none

/-- Concrete target transcript for a2 / aln2. -/
def t2 : Tgt where
  len := 6
  strand := true
  thickStart := 0
  thickStop := 100
  transcript_coordinate_to_chromosome := fun i => (i : Int)
  chromosome_coordinate_to_cds := fun i => if 0 ≤ i ∧ i < 9 then some i.toNat else none
  get_cds := ['A','T','G','G','G','G']
  get_mrna := ['A','T','G','G','G','G']
  intronIntervals := []

/-- Concrete reference transcript for the splice comparison claims. -/
def a3 : Annot where
  exon_starts := []
  len := 0
  strand := true
  exonFrames := []
  get_cds := []
  cds_coordinate_to_transcript := fun _ => none
  transcript_coordinate_to_chromosome := fun q => if q = 10 then some 500 else none
  intronIntervals := []

/-- Concrete alignment for the splice comparison claims: only target
chromosome position 149 maps back to the query. -/
def aln3 : Aln where
  query_coordinate_to_target := fun _ => none
  target_coordinate_to_query := fun c => if c = 149 then some 10 else none

/-- Target intron whose start-1 maps but whose stop does not. -/
def intron3 : GInterval := ⟨150, 250, []⟩

/-- Target intron whose start-1 position does not map back to the query. -/
def intron3b : GInterval := ⟨100, 200, []⟩

/-- Reference transcript with a 3-base CDS, below the 75-base gate. -/
def aSmall : Annot where
  exon_starts := []
  len := 3
  strand := true
  exonFrames := [0]
  get_cds := ['A','T','G']
  cds_coordinate_to_transcript := fun _ => none
  transcript_coordinate_to_chromosome := fun _ => none
  intronIntervals := []

/-- Target transcript with a 3-base CDS, below the 75-base gate. -/
def tSmall : Tgt where
  len := 3
  strand := true
  thickStart := 0
  thickStop := 3
  transcript_coordinate_to_chromosome := fun i => (i : Int)
  chromosome_coordinate_to_cds := fun _ => none
  get_cds := ['A','T','G']
  get_mrna := ['A','T','G']
  intronIntervals := []

/-- Alignment with no aligned positions at all. -/
def alnTriv : Aln where
  query_coordinate_to_target := fun _ => none
  target_coordinate_to_query := fun _ => none

/-- Dictionaries holding one alignment id whose CDS lengths fail the gate. -/
def D4 : Dicts where
  alignmentItems := [("short-1", alnTriv)]
  transcriptItems := [("short-1", tSmall)]
  annotOf := fun _ => aSmall
  alnOf := fun _ => alnTriv

/-- A 78-base coding sequence of adenines that does not start with ATG. -/
def cdsT78 : List Char := List.replicate 78 'T'

/-- A 78-base coding sequence ending in the TAA stop codon. -/
def cds78 : List Char := List.replicate 75 'A' ++ ['T','A','A']

/-- Reference transcript whose first CDS position has no mapping and whose
CDS does not start with ATG. -/
def aX : Annot where
  exon_starts := []
  len := 78
  strand := true
  exonFrames := [0]
  get_cds := cdsT78
  cds_coordinate_to_transcript := fun j => if j = 0 then none else some (j : Int)
  transcript_coordinate_to_chromosome := fun _ => none
  intronIntervals := []

/-- Identity-style alignment covering positions 0..77. -/
def alnX : Aln where
  query_coordinate_to_target := fun i => if 0 ≤ i ∧ i < 78 then some i else none
  target_coordinate_to_query := fun _ => none

/-- Target transcript with 78-base CDS for the BeginStart color example. -/
def tX : Tgt where
  len := 78
  strand := true
  thickStart := 0
  thickStop := 78
  transcript_coordinate_to_chromosome := fun i => (i : Int)
  chromosome_coordinate_to_cds := fun i => if 0 ≤ i ∧ i < 78 then some i.toNat else none
  get_cds := cdsT78
  get_mrna := cdsT78
  intronIntervals := []

/-- Dictionaries for the BeginStart color example: the mapping of the first
codon fails and the reference CDS does not start with ATG. -/
def D5 : Dicts where
  alignmentItems := [("bg-1", alnX)]
  transcriptItems := [("bg-1", tX)]
  annotOf := fun _ => aX
  alnOf := fun _ => alnX

/-- Reference transcript whose CDS positions map except the very last one
(position 77), with a proper TAA stop. -/
def aY : Annot where
  exon_starts := []
  len := 78
  strand := true
  exonFrames := [0]
  get_cds := cds78
  cds_coordinate_to_transcript := fun j => if j ≤ 76 then some (j : Int) else none
  transcript_coordinate_to_chromosome := fun _ => none
  intronIntervals := []

/-- Target transcript with a TAA-terminated 78-base CDS. -/
def tY : Tgt where
  len := 78
  strand := true
  thickStart := 0
  thickStop := 78
  transcript_coordinate_to_chromosome := fun i => (i : Int)
  chromosome_coordinate_to_cds := fun i => if 0 ≤ i ∧ i < 78 then some i.toNat else none
  get_cds := cds78
  get_mrna := cds78
  intronIntervals := []

/-- Dictionaries for the EndStop probing example: the mapping of the final
codon position 77 fails but the probed positions 74..76 all map. -/
def D5b : Dicts where
  alignmentItems := [("es-1", alnX)]
  transcriptItems := [("es-1", tY)]
  annotOf := fun _ => aY
  alnOf := fun _ => alnX

/-- Reference transcript of a fully aligned, gap-free 9-base CDS. -/
def a6 : Annot where
  exon_starts := []
  len := 9
  strand := true
  exonFrames := [0]
  get_cds := ['A','T','G','G','C','C','T','A','A']
  cds_coordinate_to_transcript := fun j => if j < 9 then some (j : Int) else none
  transcript_coordinate_to_chromosome := fun _ => none
  intronIntervals := []

/-- Identity alignment on positions 0..8. -/
def aln6 : Aln where
  query_coordinate_to_target := fun i => if 0 ≤ i ∧ i < 9 then some i else none
  target_coordinate_to_query := fun _ => none

/-- Target transcript identical to a6 in sequence. -/
def t6 : Tgt where
  len := 9
  strand := true
  thickStart := 0
  thickStop := 9
  transcript_coordinate_to_chromosome := fun i => (i : Int)
  chromosome_coordinate_to_cds := fun i => if 0 ≤ i ∧ i < 9 then some i.toNat else none
  get_cds := ['A','T','G','G','C','C','T','A','A']
  get_mrna := ['A','T','G','G','C','C','T','A','A']
  intronIntervals := []

/-- Reference transcript for the minus-strand frameshift example; query
position 0 is an exon start and is skipped. -/
def a7 : Annot where
  exon_starts := [0]
  len := 6
  strand := true
  exonFrames := []
  get_cds := []
  cds_coordinate_to_transcript := fun _ => none
  transcript_coordinate_to_chromosome := fun _ => none
  intronIntervals := []

/-- Minus-strand-style alignment: target coordinates decrease as query
coordinates increase, with a 2-base target insertion between query 1 and 2. -/
def aln7 : Aln where
  query_coordinate_to_target := fun i =>
    if i = 1 then some 20 else if i = 2 then some 17 else if i = 3 then some 16
    else if i = 4 then some 15 else if i = 5 then some 14 else none
  target_coordinate_to_query := fun c =>
    if c = 50 then some 5 else if c = 51 then some 6 else if c = 52 then some 7 else none

/-- Minus-strand target transcript whose coding region spans [0, 100). -/
def t7 : Tgt where
  len := 3
  strand := false
  thickStart := 0
  thickStop := 100
  transcript_coordinate_to_chromosome := fun i => 50 + (i : Int)
  chromosome_coordinate_to_cds := fun _ => none
  get_cds := []
  get_mrna := []
  intronIntervals := []

/-- Reference transcript for the indel-sign example. -/
def a8 : Annot where
  exon_starts := []
  len := 5
  strand := true
  exonFrames := []
  get_cds := []
  cds_coordinate_to_transcript := fun _ => none
  transcript_coordinate_to_chromosome := fun _ => none
  intronIntervals := []

/-- Alignment with one 2-base target insertion and one 2-base deletion. -/
def aln8 : Aln where
  query_coordinate_to_target := fun i =>
    if i = 0 then some 10 else if i = 1 then some 11 else if i = 2 then some 14
    else if i = 3 then some 15 else if i = 4 then some 16 else none
  target_coordinate_to_query := fun c =>
    if c = 40 then some 0 else if c = 41 then some 3 else if c = 42 then some 4 else none

/-- Plus-strand target transcript for the indel-sign example. -/
def t8 : Tgt where
  len := 3
  strand := true
  thickStart := 0
  thickStop := 100
  transcript_coordinate_to_chromosome := fun i => 40 + (i : Int)
  chromosome_coordinate_to_cds := fun _ => none
  get_cds := []
  get_mrna := []
  intronIntervals := []

/-- Target transcript with one short, N-free coding intron. -/
def t9 : Tgt where
  len := 60
  strand := true
  thickStart := 0
  thickStop := 1000
  transcript_coordinate_to_chromosome := fun i => (i : Int)
  chromosome_coordinate_to_cds := fun _ => none
  get_cds := []
  get_mrna := []
  intronIntervals := [⟨40, 50, ['G','T','A','G']⟩]

/-- Dictionaries for the CdsGap evidence example. -/
def D9 : Dicts where
  alignmentItems := []
  transcriptItems := [("gap-1", t9)]
  annotOf := fun _ => aSmall
  alnOf := fun _ => alnTriv

/-- Reference transcript of a fully aligned 78-base CDS whose final codon
is the only stop codon. -/
def a10 : Annot where
  exon_starts := []
  len := 78
  strand := true
  exonFrames := [0]
  get_cds := cds78
  cds_coordinate_to_transcript := fun j => if j < 78 then some (j : Int) else none
  transcript_coordinate_to_chromosome := fun _ => none
  intronIntervals := []

/-- Identity alignment over positions 0..77. -/
def aln10 : Aln where
  query_coordinate_to_target := fun i => if 0 ≤ i ∧ i < 78 then some i else none
  target_coordinate_to_query := fun _ => none

/-- Target transcript identical to a10 in sequence. -/
def t10 : Tgt where
  len := 78
  strand := true
  thickStart := 0
  thickStop := 78
  transcript_coordinate_to_chromosome := fun i => (i : Int)
  chromosome_coordinate_to_cds := fun i => if 0 ≤ i ∧ i < 78 then some i.toNat else none
  get_cds := cds78
  get_mrna := cds78
  intronIntervals := []

/-- Dictionaries for the InFrameStop last-codon example. -/
def D10 : Dicts where
  alignmentItems := [("ifs-1", aln10)]
  transcriptItems := [("ifs-1", t10)]
  annotOf := fun _ => a10
  alnOf := fun _ => aln10

/-- Well-formedness of a yielded insertion triple: positive signed size
with the mult3 filter evaluated on that (raw) size. -/
def insTripOk (m : Option Bool) (p : Trip) : Prop :=
  p.1 ≤ p.2.1 ∧ 0 < p.2.2 ∧ (m = some true → p.2.2 % 3 = 0) ∧
    (m = some false → p.2.2 % 3 ≠ 0)

/-- Well-formedness of a yielded deletion triple: the third component is
the negation of a non-negative raw delete size, and the mult3 filter is
evaluated on that raw size. -/
def delTripOk (m : Option Bool) (p : Trip) : Prop :=
  p.2.2 ≤ 0 ∧ (m = some true → (-p.2.2) % 3 = 0) ∧ (m = some false → (-p.2.2) % 3 ≠ 0)

instance (a : Annot) (t : Tgt) (aln : Aln) : Decidable (beginStart_cond a t aln) := by
  unfold beginStart_cond
  infer_instance

instance (a : Annot) (t : Tgt) (aln : Aln) : Decidable (endStop_cond a t aln) := by
  unfold endStop_cond
  infer_instance

theorem lookup_mem {τ : Type} {l : List (String × τ)} {k : String} {v : τ}
    (h : l.lookup k = some v) : (k, v) ∈ l := by
  induction l with
  | nil => simp [List.lookup] at h
  | cons p rest ih =>
    obtain ⟨a, b⟩ := p
    rw [List.lookup] at h
    cases hk : (k == a) <;> simp only [hk] at h
    · exact List.mem_cons_of_mem _ (ih h)
    · cases h
      have : k = a := by simpa using hk
      subst this
      exact List.mem_cons_self _ _

theorem keys_nodup_unique {τ : Type} {l : List (String × τ)} {k : String} {v1 v2 : τ}
    (hnd : (l.map Prod.fst).Nodup) (h1 : (k, v1) ∈ l) (h2 : (k, v2) ∈ l) : v1 = v2 := by
  induction l with
  | nil => simp at h1
  | cons p rest ih =>
    simp only [List.map_cons, List.nodup_cons] at hnd
    rcases List.mem_cons.1 h1 with e1 | m1 <;> rcases List.mem_cons.1 h2 with e2 | m2
    · rw [← e1] at e2; exact (Prod.mk.injEq _ _ _ _ ▸ e2).2.symm ▸ rfl
    · exfalso; exact hnd.1 (e1 ▸ (List.mem_map.2 ⟨(k, v2), m2, rfl⟩))
    · exfalso; exact hnd.1 (e2 ▸ (List.mem_map.2 ⟨(k, v1), m1, rfl⟩))
    · exact ih hnd.2 m1 m2

theorem runPure_go {τ β γ : Type} (per : String × τ → List (String × β) × List (String × γ)) :
    ∀ (items : List (String × τ)) (acc : List (String × β) × List (String × γ)),
      items.foldl (fun acc x => (acc.1 ++ (per x).1, acc.2 ++ (per x).2)) acc =
        (acc.1 ++ items.flatMap (fun x => (per x).1),
         acc.2 ++ items.flatMap (fun x => (per x).2)) := by
  intro items
  induction items with
  | nil => intro acc; simp
  | cons x xs ih =>
    intro acc
    simp only [List.foldl_cons, ih, List.flatMap_cons, List.append_assoc]

theorem runPure_fst {τ β γ : Type} (items : List (String × τ))
    (per : String × τ → List (String × β) × List (String × γ)) :
    (runPure items per).1 = items.flatMap (fun x => (per x).1) := by
  unfold runPure
  rw [runPure_go]
  simp

theorem runPure_snd {τ β γ : Type} (items : List (String × τ))
    (per : String × τ → List (String × β) × List (String × γ)) :
    (runPure items per).2 = items.flatMap (fun x => (per x).2) := by
  unfold runPure
  rw [runPure_go]
  simp

theorem runExc_go {τ β γ : Type}
    (per : String × τ → Except String (List (String × β) × List (String × γ))) :
    ∀ (items : List (String × τ)) (acc c d),
      (items.foldlM (fun acc x =>
        match per x with
        | Except.error e => Except.error e
        | Except.ok r => Except.ok (acc.1 ++ r.1, acc.2 ++ r.2)) acc) = Except.ok (c, d) →
      ((∀ e ∈ acc.1, e ∈ c) ∧ (∀ e ∈ acc.2, e ∈ d)) ∧
      (∀ x ∈ items, ∃ r, per x = Except.ok r ∧ (∀ e ∈ r.1, e ∈ c) ∧ (∀ e ∈ r.2, e ∈ d)) ∧
      (∀ e ∈ c, e ∈ acc.1 ∨ ∃ x ∈ items, ∃ r, per x = Except.ok r ∧ e ∈ r.1) ∧
      (∀ e ∈ d, e ∈ acc.2 ∨ ∃ x ∈ items, ∃ r, per x = Except.ok r ∧ e ∈ r.2) := by
  intro items
  induction items with
  | nil =>
    intro acc c d h
    simp only [List.foldlM_nil] at h
    cases h
    refine ⟨⟨fun e he => he, fun e he => he⟩, ?_, ?_, ?_⟩ <;> simp
  | cons x xs ih =>
    intro acc c d h
    rw [List.foldlM_cons] at h
    cases hx : per x with
    | error e =>
      rw [hx] at h
      simp only [bind, Except.bind] at h
      exact Except.noConfusion h
    | ok r =>
      rw [hx] at h
      simp only [bind, Except.bind] at h
      have h' : (xs.foldlM (fun acc x =>
          match per x with
          | Except.error e => Except.error e
          | Except.ok r => Except.ok (acc.1 ++ r.1, acc.2 ++ r.2))
            (acc.1 ++ r.1, acc.2 ++ r.2)) = Except.ok (c, d) := h
      obtain ⟨⟨hc1, hd1⟩, hall, hc2, hd2⟩ := ih (acc.1 ++ r.1, acc.2 ++ r.2) c d h'
      refine ⟨⟨fun e he => hc1 e (List.mem_append_left _ he),
              fun e he => hd1 e (List.mem_append_left _ he)⟩, ?_, ?_, ?_⟩
      · intro y hy
        rcases List.mem_cons.1 hy with rfl | hy'
        · exact ⟨r, hx, fun e he => hc1 e (List.mem_append_right _ he),
            fun e he => hd1 e (List.mem_append_right _ he)⟩
        · exact hall y hy'
      · intro e he
        rcases hc2 e he with hacc | ⟨y, hy, r', hr', he'⟩
        · rcases List.mem_append.1 hacc with h1 | h2
          · exact Or.inl h1
          · exact Or.inr ⟨x, List.mem_cons_self _ _, r, hx, h2⟩
        · exact Or.inr ⟨y, List.mem_cons_of_mem _ hy, r', hr', he'⟩
      · intro e he
        rcases hd2 e he with hacc | ⟨y, hy, r', hr', he'⟩
        · rcases List.mem_append.1 hacc with h1 | h2
          · exact Or.inl h1
          · exact Or.inr ⟨x, List.mem_cons_self _ _, r, hx, h2⟩
        · exact Or.inr ⟨y, List.mem_cons_of_mem _ hy, r', hr', he'⟩

theorem runExc_spec {τ β γ : Type} (items : List (String × τ))
    (per : String × τ → Except String (List (String × β) × List (String × γ)))
    {c : List (String × β)} {d : List (String × γ)}
    (h : runExc items per = Except.ok (c, d)) :
    (∀ x ∈ items, ∃ r, per x = Except.ok r ∧ (∀ e ∈ r.1, e ∈ c) ∧ (∀ e ∈ r.2, e ∈ d)) ∧
    (∀ e ∈ c, ∃ x ∈ items, ∃ r, per x = Except.ok r ∧ e ∈ r.1) ∧
    (∀ e ∈ d, ∃ x ∈ items, ∃ r, per x = Except.ok r ∧ e ∈ r.2) := by
  unfold runExc at h
  obtain ⟨_, hall, hc, hd⟩ := runExc_go per items ([], []) c d h
  refine ⟨hall, ?_, ?_⟩
  · intro e he
    rcases hc e he with habs | hx
    · simp at habs
    · exact hx
  · intro e he
    rcases hd e he with habs | hx
    · simp at habs
    · exact hx

theorem not_mem_flatMap_keyed {τ β : Type} {items : List (String × τ)}
    {f : String × τ → List (String × β)} {aId : String}
    (hkey : ∀ x ∈ items, ∀ e ∈ f x, e.1 = x.1)
    (hempty : ∀ x ∈ items, x.1 = aId → f x = []) :
    ∀ v, (aId, v) ∉ items.flatMap f := by
  intro v hmem
  rw [List.mem_flatMap] at hmem
  obtain ⟨x, hx, he⟩ := hmem
  have hk : aId = x.1 := hkey x hx _ he
  rw [hempty x hx hk.symm] at he
  exact absurd he (List.not_mem_nil _)

theorem mem_flatMap_keyed_iff {τ β : Type} {items : List (String × τ)}
    {f : String × τ → List (String × β)} {aId : String} {t : τ}
    (hkey : ∀ x ∈ items, ∀ e ∈ f x, e.1 = x.1)
    (hnd : (items.map Prod.fst).Nodup)
    (hmem : (aId, t) ∈ items) :
    ∀ v, ((aId, v) ∈ items.flatMap f ↔ (aId, v) ∈ f (aId, t)) := by
  intro v
  constructor
  · intro h
    rw [List.mem_flatMap] at h
    obtain ⟨x, hx, he⟩ := h
    have hk : aId = x.1 := hkey x hx _ he
    obtain ⟨x1, x2⟩ := x
    simp only at hk
    subst hk
    have : x2 = t := keys_nodup_unique hnd hx hmem
    subst this
    exact he
  · intro h
    exact List.mem_flatMap.2 ⟨(aId, t), hmem, h⟩

theorem mult3Emit_mem {m : Option Bool} {size : Int} {trip p : Trip}
    (h : p ∈ mult3Emit m size trip) :
    p = trip ∧ (m = some true → size % 3 = 0) ∧ (m = some false → size % 3 ≠ 0) := by
  unfold mult3Emit at h
  split_ifs at h with h1 h2 h3
  · simp only [List.mem_singleton] at h
    exact ⟨h, fun _ => h1.2, fun hm => by rw [hm] at h1; exact absurd h1.1 (by simp)⟩
  · simp only [List.mem_singleton] at h
    exact ⟨h, fun hm => by rw [hm] at h2; exact absurd h2.1 (by simp), fun _ => h2.2⟩
  · simp only [List.mem_singleton] at h
    refine ⟨h, fun hm => ?_, fun hm => ?_⟩ <;> rw [hm] at h3 <;> exact absurd h3 (by simp)
  · exact absurd h (List.not_mem_nil _)

theorem insStep_fst_some {es : List Nat} {qmap : Int → Option Int} {m : Option Bool}
    {st : Option Int × List Trip} {q : Nat} {v : Int}
    (h : (insStep es qmap m st q).1 = some v) : qmap (q : Int) = some v := by
  by_cases hex : q ∈ es
  · simp only [insStep, if_pos hex] at h
    exact absurd h (by simp)
  · cases hq : qmap (q : Int)
    · simp only [insStep, if_neg hex, hq] at h
      exact h
    · cases hst : st.1
      · simp only [insStep, if_neg hex, hq, hst] at h
        exact h
      · rename_i target prev
        by_cases hab : (target - prev).natAbs ≠ 1
        · simp only [insStep, if_neg hex, hq, hst, if_pos hab] at h
          exact h
        · simp only [insStep, if_neg hex, hq, hst, if_neg hab] at h
          exact h

theorem insStep_snd_mem {es : List Nat} {qmap : Int → Option Int} {m : Option Bool}
    {st : Option Int × List Trip} {q : Nat} {p : Trip}
    (h : p ∈ (insStep es qmap m st q).2) :
    p ∈ st.2 ∨
      ∃ prev target, st.1 = some prev ∧ qmap (q : Int) = some target ∧
        (target - prev).natAbs ≠ 1 ∧
        p ∈ mult3Emit m (((target - prev).natAbs : Int) - 1)
          (min prev target + 1, max prev target, ((target - prev).natAbs : Int) - 1) := by
  by_cases hex : q ∈ es
  · simp only [insStep, if_pos hex] at h; exact Or.inl h
  · cases hq : qmap (q : Int)
    · simp only [insStep, if_neg hex, hq] at h; exact Or.inl h
    · cases hst : st.1
      · simp only [insStep, if_neg hex, hq, hst] at h; exact Or.inl h
      · rename_i target prev
        by_cases hab : (target - prev).natAbs ≠ 1
        · simp only [insStep, if_neg hex, hq, hst, if_pos hab, List.mem_append] at h
          rcases h with h | h
          · exact Or.inl h
          · exact Or.inr ⟨prev, target, rfl, rfl, hab, h⟩
        · simp only [insStep, if_neg hex, hq, hst, if_neg hab] at h; exact Or.inl h

theorem insLoop_ok {es : List Nat} {qmap : Int → Option Int} {m : Option Bool}
    (hinj : ∀ (i j : Nat) (v : Int), qmap i = some v → qmap j = some v → i = j) :
    ∀ (l : List Nat) (st : Option Int × List Trip),
      l.Nodup →
      (∀ v, st.1 = some v → ∃ q : Nat, q ∉ l ∧ qmap q = some v) →
      (∀ p ∈ st.2, insTripOk m p) →
      ∀ p ∈ (l.foldl (insStep es qmap m) st).2, insTripOk m p := by
  intro l
  induction l with
  | nil => intro st _ _ hgood p hp; exact hgood p hp
  | cons q rest ih =>
    intro st hnd hprev hgood p hp
    rw [List.foldl_cons] at hp
    have hndr : rest.Nodup := (List.nodup_cons.1 hnd).2
    have hqr : q ∉ rest := (List.nodup_cons.1 hnd).1
    refine ih (insStep es qmap m st q) hndr ?_ ?_ p hp
    · intro v hv
      exact ⟨q, hqr, insStep_fst_some hv⟩
    · intro p2 hp2
      rcases insStep_snd_mem hp2 with hold | ⟨prev, target, hst, hq, hab, hemit⟩
      · exact hgood p2 hold
      · obtain ⟨rfl, hm1, hm2⟩ := mult3Emit_mem hemit
        obtain ⟨q', hq', hvq'⟩ := hprev prev hst
        have hqq' : q' ≠ q := fun he => hq' (he ▸ List.mem_cons_self _ _)
        have htp : target ≠ prev := fun he => hqq' (hinj q' q prev hvq' (he ▸ hq))
        have habs0 : (target - prev).natAbs ≠ 0 := by
          intro h0
          exact htp (by omega)
        have h2le : 2 ≤ (target - prev).natAbs := by omega
        have heq := Int.natAbs_eq (target - prev)
        refine ⟨?_, ?_, hm1, hm2⟩
        · simp only
          rcases le_total prev target with hle | hle
          · rw [min_eq_left hle, max_eq_right hle]
            rcases heq with he | he <;> omega
          · rw [min_eq_right hle, max_eq_left hle]
            rcases heq with he | he <;> omega
        · simp only
          omega

theorem insertion_iterator_ok {a : Annot} {t : Tgt} {aln : Aln} {m : Option Bool}
    (hinj : ∀ (i j : Nat) (v : Int), aln.query_coordinate_to_target i = some v →
      aln.query_coordinate_to_target j = some v → i = j) :
    ∀ p ∈ insertion_iterator a t aln m, insTripOk m p := by
  intro p hp
  unfold insertion_iterator at hp
  exact insLoop_ok hinj (List.range a.len) (none, []) (List.nodup_range _)
    (by intro v hv; exact absurd hv (by simp)) (by intro p hp; exact absurd hp (by simp)) p hp

theorem delStep_fst_some {tchrom : Nat → Int} {tmap : Int → Option Int} {strand : Bool}
    {m : Option Bool} {st : Option Int × List Trip} {ti : Nat} {v : Int}
    (h : (delStep tchrom tmap strand m st ti).1 = some v) : tmap (tchrom ti) = some v := by
  cases hq : tmap (tchrom ti)
  · simp only [delStep, hq] at h
    exact h
  · cases hst : st.1
    · simp only [delStep, hq, hst] at h
      exact h
    · rename_i query prev
      by_cases hab : (query - prev).natAbs ≠ 1
      · simp only [delStep, hq, hst, if_pos hab] at h
        exact h
      · simp only [delStep, hq, hst, if_neg hab] at h
        exact h

theorem delStep_snd_mem {tchrom : Nat → Int} {tmap : Int → Option Int} {strand : Bool}
    {m : Option Bool} {st : Option Int × List Trip} {ti : Nat} {p : Trip}
    (h : p ∈ (delStep tchrom tmap strand m st ti).2) :
    p ∈ st.2 ∨
      ∃ prev query, st.1 = some prev ∧ tmap (tchrom ti) = some query ∧
        (query - prev).natAbs ≠ 1 ∧
        p ∈ mult3Emit m (((query - prev).natAbs : Int) - 1)
          (if strand then tchrom ti - 1 else tchrom ti + 1,
           if strand then tchrom ti - 1 else tchrom ti + 1,
           -(((query - prev).natAbs : Int) - 1)) := by
  cases hq : tmap (tchrom ti)
  · simp only [delStep, hq] at h; exact Or.inl h
  · cases hst : st.1
    · simp only [delStep, hq, hst] at h; exact Or.inl h
    · rename_i query prev
      by_cases hab : (query - prev).natAbs ≠ 1
      · simp only [delStep, hq, hst, if_pos hab, List.mem_append] at h
        rcases h with h | h
        · exact Or.inl h
        · exact Or.inr ⟨prev, query, rfl, rfl, hab, h⟩
      · simp only [delStep, hq, hst, if_neg hab] at h; exact Or.inl h

theorem delLoop_ok {tchrom : Nat → Int} {tmap : Int → Option Int} {strand : Bool}
    {m : Option Bool}
    (hinj : ∀ (i j : Nat) (v : Int), tmap (tchrom i) = some v → tmap (tchrom j) = some v →
      i = j) :
    ∀ (l : List Nat) (st : Option Int × List Trip),
      l.Nodup →
      (∀ v, st.1 = some v → ∃ q : Nat, q ∉ l ∧ tmap (tchrom q) = some v) →
      (∀ p ∈ st.2, delTripOk m p) →
      ∀ p ∈ (l.foldl (delStep tchrom tmap strand m) st).2, delTripOk m p := by
  intro l
  induction l with
  | nil => intro st _ _ hgood p hp; exact hgood p hp
  | cons q rest ih =>
    intro st hnd hprev hgood p hp
    rw [List.foldl_cons] at hp
    have hndr : rest.Nodup := (List.nodup_cons.1 hnd).2
    have hqr : q ∉ rest := (List.nodup_cons.1 hnd).1
    refine ih (delStep tchrom tmap strand m st q) hndr ?_ ?_ p hp
    · intro v hv
      exact ⟨q, hqr, delStep_fst_some hv⟩
    · intro p2 hp2
      rcases delStep_snd_mem hp2 with hold | ⟨prev, query, hst, hq, hab, hemit⟩
      · exact hgood p2 hold
      · obtain ⟨rfl, hm1, hm2⟩ := mult3Emit_mem hemit
        obtain ⟨q', hq', hvq'⟩ := hprev prev hst
        have hqq' : q' ≠ q := fun he => hq' (he ▸ List.mem_cons_self _ _)
        have htp : query ≠ prev := fun he => hqq' (hinj q' q prev hvq' (he ▸ hq))
        have habs0 : (query - prev).natAbs ≠ 0 := by
          intro h0
          exact htp (by omega)
        refine ⟨by simp only; omega, ?_, ?_⟩
        · intro hm
          have := hm1 hm
          simp only at this ⊢
          omega
        · intro hm
          have := hm2 hm
          simp only at this ⊢
          omega

theorem deletion_iterator_ok {a : Annot} {t : Tgt} {aln : Aln} {m : Option Bool}
    (hinj : ∀ (i j : Nat) (v : Int),
      aln.target_coordinate_to_query (t.transcript_coordinate_to_chromosome i) = some v →
      aln.target_coordinate_to_query (t.transcript_coordinate_to_chromosome j) = some v →
      i = j) :
    ∀ p ∈ deletion_iterator a t aln m, delTripOk m p := by
  intro p hp
  unfold deletion_iterator at hp
  exact delLoop_ok hinj (List.range t.len) (none, []) (List.nodup_range _)
    (by intro v hv; exact absurd hv (by simp)) (by intro p hp; exact absurd hp (by simp)) p hp

theorem foldl_list_inv {σ α : Type} (f : σ → α → σ) (P : σ → Prop) :
    ∀ (l : List α) (s : σ), P s → (∀ s a, P s → P (f s a)) → P (l.foldl f s) := by
  intro l
  induction l with
  | nil => intro s hs _; exact hs
  | cons x xs ih => intro s hs hstep; exact ih (f s x) (hstep s x hs) hstep

theorem deletion_iterator_startstop {a : Annot} {t : Tgt} {aln : Aln} {m : Option Bool} :
    ∀ p ∈ deletion_iterator a t aln m, p.1 = p.2.1 := by
  unfold deletion_iterator
  have := foldl_list_inv
    (delStep t.transcript_coordinate_to_chromosome aln.target_coordinate_to_query t.strand m)
    (fun st => ∀ p ∈ st.2, p.1 = p.2.1) (List.range t.len) (none, [])
    (by intro p hp; exact absurd hp (by simp))
    (by
      intro st q hst p hp
      rcases delStep_snd_mem hp with hold | ⟨prev, query, _, _, _, hemit⟩
      · exact hst p hold
      · obtain ⟨rfl, _, _⟩ := mult3Emit_mem hemit
        rfl)
  exact this

theorem mem_sortedInsert (x y : Trip) (l : List Trip) :
    y ∈ sortedInsert x l ↔ y = x ∨ y ∈ l := by
  induction l with
  | nil => simp [sortedInsert]
  | cons z zs ih =>
    unfold sortedInsert
    by_cases h : tripLe x z
    · rw [if_pos h]
      simp [List.mem_cons]
    · rw [if_neg h]
      simp only [List.mem_cons, ih]
      tauto

theorem mem_sortTrips (y : Trip) (l : List Trip) : y ∈ sortTrips l ↔ y ∈ l := by
  induction l with
  | nil => simp [sortTrips]
  | cons z zs ih =>
    unfold sortTrips
    rw [mem_sortedInsert]
    simp only [List.mem_cons, ih]

theorem mergeFold_le :
    ∀ (l : List Trip) (acc : List Trip),
      (∀ p ∈ l, p.1 ≤ p.2.1) → (∀ p ∈ acc, p.1 ≤ p.2.1) →
      ∀ p ∈ l.foldl mergeStep acc, p.1 ≤ p.2.1 := by
  intro l
  induction l with
  | nil => intro acc _ hacc p hp; exact hacc p hp
  | cons x xs ih =>
    intro acc hl hacc p hp
    rw [List.foldl_cons] at hp
    refine ih (mergeStep acc x) (fun q hq => hl q (List.mem_cons_of_mem _ hq)) ?_ p hp
    intro q hq
    cases acc with
    | nil =>
      simp only [mergeStep, List.mem_singleton] at hq
      exact hq ▸ hl x (List.mem_cons_self _ _)
    | cons lower rest =>
      simp only [mergeStep] at hq
      by_cases hc : x.1 ≤ lower.2.1
      · rw [if_pos hc] at hq
        rcases List.mem_cons.1 hq with rfl | hq'
        · have hlow := hacc lower (List.mem_cons_self _ _)
          exact le_trans hlow (le_max_left _ _)
        · exact hacc q (List.mem_cons_of_mem _ hq')
      · rw [if_neg hc] at hq
        rcases List.mem_cons.1 hq with h1 | hq'
        · rw [h1]; exact hl x (List.mem_cons_self _ _)
        · exact hacc q hq'

theorem mergeFold_go :
    ∀ (l : List Trip) (x : Trip) (rest : List Trip),
      (l.foldl mergeStep (x :: rest)).reverse = rest.reverse ++ specMergeAux x l := by
  intro l
  induction l with
  | nil => intro x rest; simp [specMergeAux]
  | cons h tl ih =>
    intro x rest
    rw [List.foldl_cons]
    have hstep : mergeStep (x :: rest) h =
        if h.1 ≤ x.2.1 then (x.1, max x.2.1 h.2.1, x.2.2 + h.2.2) :: rest
        else h :: x :: rest := rfl
    rw [hstep]
    by_cases hc : h.1 ≤ x.2.1
    · rw [if_pos hc, ih]
      simp only [specMergeAux]
      rw [if_pos hc]
    · rw [if_neg hc, ih]
      simp only [specMergeAux]
      rw [if_neg hc]
      simp only [List.reverse_cons, List.append_assoc, List.cons_append, List.nil_append]

theorem mergeFold_eq_specMerge (l : List Trip) :
    (l.foldl mergeStep []).reverse = specMerge l := by
  cases l with
  | nil => simp [specMerge]
  | cons x xs =>
    rw [List.foldl_cons]
    show ((xs.foldl mergeStep (x :: [])).reverse = _)
    rw [mergeFold_go]
    simp [specMerge]

/-- C1: for every annotation / target / alignment input, frame_shift_iterator
equals the spec-described pipeline: collect the non-multiple-of-3 insertions
and deletions, sort them by start coordinate, merge adjacent or overlapping
spans (next start at most the current stop) summing their signed sizes, and
drop merged spans whose total is a multiple of 3 (followed by the strand
orientation and coding-region restriction of the source); in particular two
adjacent indels of signed sizes +1 and -1 merge into a span of total 0 and
are dropped, while +1 and +4 merge into total 5 and are retained. -/
theorem C1_frame_shift_merge :
    (∀ (a : Annot) (t : Tgt) (aln : Aln),
      frame_shift_iterator a t aln = specFrameshifts a t aln) ∧
    specDropMult3 (specMerge [((0 : Int), (5 : Int), (1 : Int)),
      ((5 : Int), (9 : Int), (-1 : Int))]) = [] ∧
    specDropMult3 (specMerge [((0 : Int), (5 : Int), (1 : Int)),
      ((5 : Int), (9 : Int), (4 : Int))]) = [((0 : Int), (9 : Int), (5 : Int))] := by
  refine ⟨?_, by decide, by decide⟩
  intro a t aln
  simp only [frame_shift_iterator, specFrameshifts, specNonMult3Indels, specCdsFilter,
    specStrandOrient, specDropMult3]
  rw [mergeFold_eq_specMerge]
  cases ht : t.strand
  · simp only [ht, Bool.false_eq_true, if_false, if_true, List.filter_reverse]
  · simp only [ht, Bool.true_eq_false, if_false, if_true]

/-- C7 counterexample: on a minus-strand transcript a retained insertion span
is yielded with start 20 and stop 18, so the claimed start < stop invariant
fails on the code. -/
theorem C7_counterexample_minus_strand :
    frame_shift_iterator a7 t7 aln7 = [((20 : Int), (18 : Int), (2 : Int))] ∧
    ¬((20 : Int) < (18 : Int)) := by
  constructor
  · decide
  · decide

/-- C7 amended: every span yielded by frame_shift_iterator satisfies the
literal bounds check of the source (start at least thickStart, stop below
thickStop); on plus-strand transcripts start is at most stop, so the span
lies inside the coding region, while on minus-strand transcripts the order
reversal and start / stop role swap make start the genomically larger end,
so stop is at most start. -/
theorem C7_frame_shift_orientation (a : Annot) (t : Tgt) (aln : Aln)
    (hinj : ∀ (i j : Nat) (v : Int), aln.query_coordinate_to_target i = some v →
      aln.query_coordinate_to_target j = some v → i = j) :
    ∀ p ∈ frame_shift_iterator a t aln,
      t.thickStart ≤ p.1 ∧ p.2.1 < t.thickStop ∧
      (t.strand = true → p.1 ≤ p.2.1) ∧ (t.strand = false → p.2.1 ≤ p.1) := by
  intro p hp
  simp only [frame_shift_iterator] at hp
  rw [List.mem_filter] at hp
  obtain ⟨hmem, hcond⟩ := hp
  simp only [Bool.and_eq_true, decide_eq_true_eq] at hcond
  have hmerged : ∀ q ∈ (sortTrips (deletion_iterator a t aln (some false) ++
      insertion_iterator a t aln (some false))).foldl mergeStep [], q.1 ≤ q.2.1 := by
    apply mergeFold_le
    · intro q hq
      rw [mem_sortTrips] at hq
      rcases List.mem_append.1 hq with hd | hi
      · exact le_of_eq (deletion_iterator_startstop q hd)
      · exact (insertion_iterator_ok hinj q hi).1
    · intro q hq; exact absurd hq (by simp)
  refine ⟨hcond.1, hcond.2, ?_, ?_⟩
  · intro htrue
    rw [htrue] at hmem
    simp only [Bool.true_eq_false, if_false, List.mem_filter, List.mem_reverse] at hmem
    exact hmerged p hmem.1
  · intro hfalse
    rw [hfalse] at hmem
    simp only [if_true, List.mem_map, List.mem_filter, List.reverse_reverse,
      List.mem_reverse] at hmem
    obtain ⟨q, ⟨hq, _⟩, hpq⟩ := hmem
    have hle := hmerged q hq
    rw [← hpq]
    exact hle

/-- C8: every triple yielded by insertion_iterator carries a positive signed
size on which the mult3 filter was evaluated, and every triple yielded by
deletion_iterator carries a non-positive signed size that is the negation of
the non-negative raw delete size on which the mult3 filter was evaluated. -/
theorem C8_indel_sign_invariants (a : Annot) (t : Tgt) (aln : Aln) (m : Option Bool)
    (hinj1 : ∀ (i j : Nat) (v : Int), aln.query_coordinate_to_target i = some v →
      aln.query_coordinate_to_target j = some v → i = j)
    (hinj2 : ∀ (i j : Nat) (v : Int),
      aln.target_coordinate_to_query (t.transcript_coordinate_to_chromosome i) = some v →
      aln.target_coordinate_to_query (t.transcript_coordinate_to_chromosome j) = some v →
      i = j) :
    (∀ p ∈ insertion_iterator a t aln m, insTripOk m p) ∧
    (∀ p ∈ deletion_iterator a t aln m, delTripOk m p) :=
  ⟨insertion_iterator_ok hinj1, deletion_iterator_ok hinj2⟩

/-- C7 witness: the amended orientation statement evaluated on the concrete
minus-strand instance, at the yielded span (20, 18, 2). -/
theorem C7_witness :
    t7.thickStart ≤ (20 : Int) ∧ (18 : Int) < t7.thickStop ∧
    (t7.strand = true → (20 : Int) ≤ (18 : Int)) ∧
    (t7.strand = false → (18 : Int) ≤ (20 : Int)) := by
  have hinj : ∀ (i j : Nat) (v : Int), aln7.query_coordinate_to_target i = some v →
      aln7.query_coordinate_to_target j = some v → i = j := by
    intro i j v hi hj
    simp only [aln7] at hi hj
    split_ifs at hi hj <;> simp_all <;> omega
  exact C7_frame_shift_orientation a7 t7 aln7 hinj ((20 : Int), (18 : Int), (2 : Int))
    (by decide)

/-- C8 witness: the sign and filter invariants evaluated on a concrete
instance with one insertion triple (12, 14, 2) and one deletion triple
(40, 40, -2) under the non-multiple-of-3 filter. -/
theorem C8_witness :
    insTripOk (some false) ((12 : Int), (14 : Int), (2 : Int)) ∧
    delTripOk (some false) ((40 : Int), (40 : Int), (-2 : Int)) := by
  have hinj1 : ∀ (i j : Nat) (v : Int), aln8.query_coordinate_to_target i = some v →
      aln8.query_coordinate_to_target j = some v → i = j := by
    intro i j v hi hj
    simp only [aln8] at hi hj
    split_ifs at hi hj <;> simp_all <;> omega
  have hinj2 : ∀ (i j : Nat) (v : Int),
      aln8.target_coordinate_to_query (t8.transcript_coordinate_to_chromosome i) = some v →
      aln8.target_coordinate_to_query (t8.transcript_coordinate_to_chromosome j) = some v →
      i = j := by
    intro i j v hi hj
    simp only [aln8, t8] at hi hj
    split_ifs at hi hj <;> simp_all <;> omega
  have h := C8_indel_sign_invariants a8 t8 aln8 (some false) hinj1 hinj2
  exact ⟨h.1 _ (by decide), h.2 _ (by decide)⟩

/-- C2 counterexample: on a concrete input whose second codon maps to
target CDS positions 3, 5, 7 (all mapped but not consecutive), the codon
pair walker raises the assertion of the source instead of skipping the
triple and continuing, so the iteration aborts with an error. -/
theorem C2_counterexample_assert :
    codon_pair_iterator a2 t2 aln2 = Except.error assertMsg := by rfl

/-- C2 amended: the codon pair walker skips a triple only when one of its
three positions fails to map; a fully mapped triple whose target CDS
positions are not exactly consecutive fires the assert of the source and
aborts the walk with an error rather than being skipped. -/
theorem C2_codon_walker_assert_behavior :
    (∀ (p : Nat → Option Nat) (tcds qcds : List Char) (i : Nat) (rest : List Nat),
      (p i = none ∨ p (i + 1) = none ∨ p (i + 2) = none) →
      cpGo p tcds qcds (i :: rest) = cpGo p tcds qcds rest) ∧
    (∀ (p : Nat → Option Nat) (tcds qcds : List Char) (i : Nat) (rest : List Nat)
      (p0 p1 p2 : Nat),
      p i = some p0 → p (i + 1) = some p1 → p (i + 2) = some p2 →
      ¬(p2 = p1 + 1 ∧ p1 = p0 + 1 ∧ p2 = p0 + 2) →
      cpGo p tcds qcds (i :: rest) = Except.error assertMsg) := by
  constructor
  · intro p tcds qcds i rest h
    cases h0 : p i <;> cases h1 : p (i + 1) <;> cases h2 : p (i + 2) <;>
      simp only [cpGo, h0, h1, h2] <;> rcases h with h | h | h <;> simp_all
  · intro p tcds qcds i rest p0 p1 p2 h0 h1 h2 hnc
    simp only [cpGo, h0, h1, h2, if_neg hnc]

/-- C2 witness: the amended statement applied to a concrete chain mapping
every position to 0, whose first triple is mapped but not consecutive. -/
theorem C2_witness :
    cpGo (fun _ => some 0) [] [] [0, 7] = Except.error assertMsg :=
  C2_codon_walker_assert_behavior.2 (fun _ => some 0) [] [] 0 [7] 0 0 0 rfl rfl rfl
    (by decide)

/-- C3 counterexample: on a concrete intron whose start-1 position fails to
map back through the alignment, compare_intron_to_reference raises a
TypeError (modelled as none) instead of returning false. -/
theorem C3_counterexample_start_map :
    compare_intron_to_reference intron3b a3 aln3 canonicalGT = none ∧
    compare_intron_to_reference intron3b a3 aln3 canonicalGT ≠ some false := by
  constructor
  · decide
  · decide

/-- C3 amended: compare_intron_to_reference returns false without error
when the start-1 mapping succeeds and the stop mapping fails; when the
start-1 mapping itself fails the incremented sentinel raises a TypeError
(modelled as none) before the None test of the source can run. -/
theorem C3_splice_mapping_failures :
    (∀ (intron : GInterval) (a : Annot) (aln : Aln) (cd : List (List Char × List Char)),
      ((aln.target_coordinate_to_query (intron.start - 1)).bind
        a.transcript_coordinate_to_chromosome) = none →
      compare_intron_to_reference intron a aln cd = none) ∧
    (∀ (intron : GInterval) (a : Annot) (aln : Aln) (cd : List (List Char × List Char))
      (v : Int),
      ((aln.target_coordinate_to_query (intron.start - 1)).bind
        a.transcript_coordinate_to_chromosome) = some v →
      ((aln.target_coordinate_to_query intron.stop).bind
        a.transcript_coordinate_to_chromosome) = none →
      compare_intron_to_reference intron a aln cd = some false) := by
  constructor
  · intro intron a aln cd h
    simp only [compare_intron_to_reference, h]
  · intro intron a aln cd v h1 h2
    simp only [compare_intron_to_reference, h1, h2]

/-- C3 witness: the amended statement applied to the concrete intron whose
start-1 maps to query position 10 (then reference chromosome 500) while the
stop mapping fails, yielding false without error. -/
theorem C3_witness :
    compare_intron_to_reference intron3 a3 aln3 canonicalGT = some false :=
  C3_splice_mapping_failures.2 intron3 a3 aln3 canonicalGT 500 (by decide) (by decide)

/-- C6: for a fully aligned, gap-free, frame-0 plus-strand CDS of length 9
whose reference and target sequences are identical (the chain maps every
CDS position to itself), the codon pair walker yields exactly 3 codon
pairs, at target CDS offsets 0, 3, 6, each with target codon equal to the
reference codon. -/
theorem C6_codon_walker_complete (a : Annot) (t : Tgt) (aln : Aln)
    (hstrand : a.strand = true)
    (hframes : a.exonFrames.filter (fun x => x != -1) = [0])
    (hlen : a.get_cds.length = 9)
    (hseq : t.get_cds = a.get_cds)
    (hchain : ∀ j, j < 9 → chainPos a t aln j = some j) :
    codon_pair_iterator a t aln =
      Except.ok [(0, a.get_cds.take 3, a.get_cds.take 3),
        (3, (a.get_cds.drop 3).take 3, (a.get_cds.drop 3).take 3),
        (6, (a.get_cds.drop 6).take 3, (a.get_cds.drop 6).take 3)] := by
  have h0 := hchain 0 (by omega)
  have h1 := hchain 1 (by omega)
  have h2 := hchain 2 (by omega)
  have h3 := hchain 3 (by omega)
  have h4 := hchain 4 (by omega)
  have h5 := hchain 5 (by omega)
  have h6 := hchain 6 (by omega)
  have h7 := hchain 7 (by omega)
  have h8 := hchain 8 (by omega)
  have hrange : pythonRange3 0 9 = [0, 3, 6] := rfl
  simp only [codon_pair_iterator, hframes, hstrand, if_true, Annot.getCdsLength, hlen,
    Int.toNat_ofNat, hrange]
  simp [cpGo, h0, h1, h2, h3, h4, h5, h6, h7, h8, hseq]

/-- C6 witness: the walker evaluated on the concrete identity-aligned
9-base CDS instance. -/
theorem C6_witness :
    codon_pair_iterator a6 t6 aln6 =
      Except.ok [(0, a6.get_cds.take 3, a6.get_cds.take 3),
        (3, (a6.get_cds.drop 3).take 3, (a6.get_cds.drop 3).take 3),
        (6, (a6.get_cds.drop 6).take 3, (a6.get_cds.drop 6).take 3)] :=
  C6_codon_walker_complete a6 t6 aln6 rfl rfl rfl rfl (by decide)

theorem beginStart_per_key (D : Dicts) (x : String × Tgt) :
    (∀ e ∈ (beginStart_per D x).1, e.1 = x.1) ∧ (∀ e ∈ (beginStart_per D x).2, e.1 = x.1) := by
  simp only [beginStart_per]
  split_ifs <;> constructor <;> intro e he <;> simp_all

theorem endStop_per_key (D : Dicts) (x : String × Tgt) :
    (∀ e ∈ (endStop_per D x).1, e.1 = x.1) ∧ (∀ e ∈ (endStop_per D x).2, e.1 = x.1) := by
  simp only [endStop_per]
  split_ifs <;> constructor <;> intro e he <;> simp_all

theorem endStop_per_eval (D : Dicts) (x : String × Tgt)
    (hgate : ¬((D.annotOf x.1).getCdsLength ≤ 75 ∨ x.2.getCdsLength ≤ 75)) :
    endStop_per D x =
      if endStop_cond (D.annotOf x.1) x.2 (D.alnOf x.1) then
        ([(x.1, 1)], [(x.1, mkBed ((x.2.getCdsLength - 3 : Nat) : Int)
          (x.2.getCdsLength : Int) (endStop_evidence_color (D.annotOf x.1)))])
      else ([(x.1, 0)], []) := by
  by_cases hc : endStop_cond (D.annotOf x.1) x.2 (D.alnOf x.1)
  · rw [if_pos hc]
    simp only [endStop_per, if_neg hgate]
    rw [if_pos (show none ∈ endStop_positions (D.annotOf x.1) x.2 (D.alnOf x.1) ∨
      lastThree x.2.get_cds ∉ stopCodonsL from hc)]
    simp only [endStop_evidence_color]
  · rw [if_neg hc]
    simp only [endStop_per, if_neg hgate]
    rw [if_neg (show ¬(none ∈ endStop_positions (D.annotOf x.1) x.2 (D.alnOf x.1) ∨
      lastThree x.2.get_cds ∉ stopCodonsL) from hc)]

theorem beginStart_per_eval (D : Dicts) (x : String × Tgt)
    (hgate : ¬((D.annotOf x.1).getCdsLength ≤ 75 ∨ x.2.getCdsLength ≤ 75)) :
    beginStart_per D x =
      if beginStart_cond (D.annotOf x.1) x.2 (D.alnOf x.1) then
        ([(x.1, 1)], [(x.1, mkBed 0 3
          (beginStart_evidence_color (D.annotOf x.1) x.2 (D.alnOf x.1)))])
      else ([(x.1, 0)], []) := by
  by_cases h1 : none ∈ beginStart_positions (D.annotOf x.1) x.2 (D.alnOf x.1)
  · rw [if_pos (show beginStart_cond (D.annotOf x.1) x.2 (D.alnOf x.1) from Or.inl h1)]
    simp only [beginStart_per, if_neg hgate]
    rw [if_pos h1]
    simp only [beginStart_evidence_color, if_pos h1]
  · by_cases h2 : x.2.get_cds.take 3 ≠ cATG
    · rw [if_pos (show beginStart_cond (D.annotOf x.1) x.2 (D.alnOf x.1) from Or.inr h2)]
      simp only [beginStart_per, if_neg hgate]
      rw [if_neg h1, if_pos h2]
      simp only [beginStart_evidence_color, if_neg h1]
      by_cases h3 : (D.annotOf x.1).get_cds.take 3 ≠ cATG
      · rw [if_pos h3, if_pos h3]
      · rw [if_neg h3, if_neg h3]
    · have hc : ¬ beginStart_cond (D.annotOf x.1) x.2 (D.alnOf x.1) := by
        unfold beginStart_cond
        tauto
      rw [if_neg hc]
      simp only [beginStart_per, if_neg hgate]
      rw [if_neg h1, if_neg h2]

/-- C5 counterexample: in the concrete BeginStart instance the first codon's
mapping fails and the reference CDS also lacks ATG, yet the evidence color
is the rule's own generic color and not the informational input color; and
in the concrete EndStop instance the mapping of the final codon position 77
fails while the probed positions s-4..s-2 all map and the target ends in a
stop codon, so EndStop assigns call 0 where the claim would assign 1. -/
theorem C5_counterexample_colors_and_probe :
    (beginStart_run D5).2 = [("bg-1", mkBed 0 3 (colors cGeneric))] ∧
    colors cGeneric ≠ colors cInput ∧
    aX.get_cds.take 3 ≠ cATG ∧
    (endStop_run D5b).1 = [("es-1", 0)] ∧
    chainPos aY tY alnX (tY.getCdsLength - 1) = none ∧
    lastThree tY.get_cds ∈ stopCodonsL := by
  refine ⟨by rfl, by decide, by decide, by rfl, by rfl, by decide⟩

/-- C5 amended: for every gate-passing transcript, EndStop assigns call 1
exactly when one of the probed reference CDS positions s-4, s-3, s-2 (s the
target CDS length) fails to map or the target CDS does not end in a stop
codon, with evidence colored input exactly when the reference CDS itself
lacks a stop; BeginStart assigns call 1 exactly when the first codon's
mapping fails or the target CDS does not start with ATG, but its evidence
uses the input color only when the mapping succeeded and both target and
reference lack ATG — a failed mapping always carries BeginStart's own
color, regardless of the reference. -/
theorem C5_begin_end_stop_behavior (D : Dicts) (aId : String) (t : Tgt)
    (hmem : (aId, t) ∈ D.transcriptItems)
    (hnd : (D.transcriptItems.map Prod.fst).Nodup)
    (hgate1 : 75 < (D.annotOf aId).getCdsLength)
    (hgate2 : 75 < t.getCdsLength) :
    (((aId, 1) ∈ (endStop_run D).1) ↔ endStop_cond (D.annotOf aId) t (D.alnOf aId)) ∧
    (((aId, 0) ∈ (endStop_run D).1) ↔ ¬ endStop_cond (D.annotOf aId) t (D.alnOf aId)) ∧
    (endStop_cond (D.annotOf aId) t (D.alnOf aId) →
      (aId, mkBed ((t.getCdsLength - 3 : Nat) : Int) (t.getCdsLength : Int)
        (endStop_evidence_color (D.annotOf aId))) ∈ (endStop_run D).2) ∧
    (¬ endStop_cond (D.annotOf aId) t (D.alnOf aId) →
      ∀ b, (aId, b) ∉ (endStop_run D).2) ∧
    (((aId, 1) ∈ (beginStart_run D).1) ↔
      beginStart_cond (D.annotOf aId) t (D.alnOf aId)) ∧
    (((aId, 0) ∈ (beginStart_run D).1) ↔
      ¬ beginStart_cond (D.annotOf aId) t (D.alnOf aId)) ∧
    (beginStart_cond (D.annotOf aId) t (D.alnOf aId) →
      (aId, mkBed 0 3 (beginStart_evidence_color (D.annotOf aId) t (D.alnOf aId))) ∈
        (beginStart_run D).2) ∧
    (¬ beginStart_cond (D.annotOf aId) t (D.alnOf aId) →
      ∀ b, (aId, b) ∉ (beginStart_run D).2) := by
  have hgate : ¬((D.annotOf aId).getCdsLength ≤ 75 ∨ t.getCdsLength ≤ 75) := by omega
  have hrunE1 : (endStop_run D).1 = D.transcriptItems.flatMap
      (fun x => (endStop_per D x).1) := by
    simp only [endStop_run]
    exact runPure_fst _ _
  have hrunE2 : (endStop_run D).2 = D.transcriptItems.flatMap
      (fun x => (endStop_per D x).2) := by
    simp only [endStop_run]
    exact runPure_snd _ _
  have hrunB1 : (beginStart_run D).1 = D.transcriptItems.flatMap
      (fun x => (beginStart_per D x).1) := by
    simp only [beginStart_run]
    exact runPure_fst _ _
  have hrunB2 : (beginStart_run D).2 = D.transcriptItems.flatMap
      (fun x => (beginStart_per D x).2) := by
    simp only [beginStart_run]
    exact runPure_snd _ _
  have hiffE1 := mem_flatMap_keyed_iff (f := fun x => (endStop_per D x).1)
    (fun x _ => (endStop_per_key D x).1) hnd hmem
  have hiffE2 := mem_flatMap_keyed_iff (f := fun x => (endStop_per D x).2)
    (fun x _ => (endStop_per_key D x).2) hnd hmem
  have hiffB1 := mem_flatMap_keyed_iff (f := fun x => (beginStart_per D x).1)
    (fun x _ => (beginStart_per_key D x).1) hnd hmem
  have hiffB2 := mem_flatMap_keyed_iff (f := fun x => (beginStart_per D x).2)
    (fun x _ => (beginStart_per_key D x).2) hnd hmem
  have hperE := endStop_per_eval D (aId, t) hgate
  have hperB := beginStart_per_eval D (aId, t) hgate
  refine ⟨?_, ?_, ?_, ?_, ?_, ?_, ?_, ?_⟩
  · rw [hrunE1, hiffE1 1]
    simp only [hperE]
    by_cases hc : endStop_cond (D.annotOf aId) t (D.alnOf aId) <;> simp [hc]
  · rw [hrunE1, hiffE1 0]
    simp only [hperE]
    by_cases hc : endStop_cond (D.annotOf aId) t (D.alnOf aId) <;> simp [hc]
  · intro hc
    rw [hrunE2, hiffE2 _]
    simp only [hperE]
    simp [hc]
  · intro hc b
    rw [hrunE2, hiffE2 _]
    simp only [hperE]
    simp [hc]
  · rw [hrunB1, hiffB1 1]
    simp only [hperB]
    by_cases hc : beginStart_cond (D.annotOf aId) t (D.alnOf aId) <;> simp [hc]
  · rw [hrunB1, hiffB1 0]
    simp only [hperB]
    by_cases hc : beginStart_cond (D.annotOf aId) t (D.alnOf aId) <;> simp [hc]
  · intro hc
    rw [hrunB2, hiffB2 _]
    simp only [hperB]
    simp [hc]
  · intro hc b
    rw [hrunB2, hiffB2 _]
    simp only [hperB]
    simp [hc]

/-- C5 witness: the amended statement applied to the concrete BeginStart
instance, whose call condition holds because the first codon's mapping
fails. -/
theorem C5_witness :
    ("bg-1", 1) ∈ (beginStart_run D5).1 :=
  ((C5_begin_end_stop_behavior D5 "bg-1" tX (by exact List.mem_cons_self _ _) (by decide)
    (by decide) (by decide)).2.2.2.2.1).2 (Or.inl (by decide))

theorem codingInsertions_per_key (D : Dicts) (m : Option Bool) (x : String × Aln) :
    (∀ e ∈ (codingInsertions_per D m x).1, e.1 = x.1) ∧
    (∀ e ∈ (codingInsertions_per D m x).2, e.1 = x.1) := by
  rcases hq : D.transcriptItems.lookup x.1 with _ | t <;>
    simp only [codingInsertions_per, hq]
  · exact ⟨by simp, by simp⟩
  · split_ifs <;> constructor <;> intro e he <;> simp_all

theorem codingInsertions_per_gate (D : Dicts) (m : Option Bool) (x : String × Aln)
    (t : Tgt) (hq : D.transcriptItems.lookup x.1 = some t)
    (hg : (D.annotOf x.1).getCdsLength ≤ 75 ∨ t.getCdsLength ≤ 75) :
    codingInsertions_per D m x = ([], []) := by
  simp only [codingInsertions_per, hq, if_pos hg]

theorem codingDeletions_per_key (D : Dicts) (m : Option Bool) (x : String × Aln) :
    (∀ e ∈ (codingDeletions_per D m x).1, e.1 = x.1) ∧
    (∀ e ∈ (codingDeletions_per D m x).2, e.1 = x.1) := by
  rcases hq : D.transcriptItems.lookup x.1 with _ | t <;>
    simp only [codingDeletions_per, hq]
  · exact ⟨by simp, by simp⟩
  · split_ifs <;> constructor <;> intro e he <;> simp_all

theorem codingDeletions_per_gate (D : Dicts) (m : Option Bool) (x : String × Aln)
    (t : Tgt) (hq : D.transcriptItems.lookup x.1 = some t)
    (hg : (D.annotOf x.1).getCdsLength ≤ 75 ∨ t.getCdsLength ≤ 75) :
    codingDeletions_per D m x = ([], []) := by
  simp only [codingDeletions_per, hq, if_pos hg]

theorem beginStart_per_gate (D : Dicts) (x : String × Tgt)
    (hg : (D.annotOf x.1).getCdsLength ≤ 75 ∨ x.2.getCdsLength ≤ 75) :
    beginStart_per D x = ([], []) := by
  simp only [beginStart_per, if_pos hg]

theorem endStop_per_gate (D : Dicts) (x : String × Tgt)
    (hg : (D.annotOf x.1).getCdsLength ≤ 75 ∨ x.2.getCdsLength ≤ 75) :
    endStop_per D x = ([], []) := by
  simp only [endStop_per, if_pos hg]

theorem inFrameStop_per_gate (D : Dicts) (x : String × Tgt)
    (hg : (D.annotOf x.1).getCdsLength ≤ 75 ∨ x.2.getCdsLength ≤ 75) :
    inFrameStop_per D x = Except.ok ([], []) := by
  simp only [inFrameStop_per, if_pos hg]

theorem frameShift_per_gate (D : Dicts) (x : String × Aln) (t : Tgt)
    (hq : D.transcriptItems.lookup x.1 = some t)
    (hg : (D.annotOf x.1).getCdsLength ≤ 75 ∨ t.getCdsLength ≤ 75) :
    frameShift_per D x = Except.ok ([], []) := by
  simp only [frameShift_per, hq, if_pos hg]

theorem nonsynonymous_per_gate (D : Dicts) (x : String × Aln) (t : Tgt)
    (hq : D.transcriptItems.lookup x.1 = some t)
    (hg : (D.annotOf x.1).getCdsLength ≤ 75 ∨ t.getCdsLength ≤ 75) :
    nonsynonymous_per D x = Except.ok ([], []) := by
  simp only [nonsynonymous_per, hq, if_pos hg]

theorem synonymous_per_gate (D : Dicts) (x : String × Aln) (t : Tgt)
    (hq : D.transcriptItems.lookup x.1 = some t)
    (hg : (D.annotOf x.1).getCdsLength ≤ 75 ∨ t.getCdsLength ≤ 75) :
    synonymous_per D x = Except.ok ([], []) := by
  simp only [synonymous_per, hq, if_pos hg]

theorem inFrameStop_per_ok (D : Dicts) (x : String × Tgt)
    (r : List (String × Nat) × List (String × List Bed))
    (h : inFrameStop_per D x = Except.ok r) :
    (∀ e ∈ r.1, e.1 = x.1) ∧ (∀ e ∈ r.2, e.1 = x.1) := by
  simp only [inFrameStop_per] at h
  split_ifs at h with hg
  · cases h; exact ⟨by simp, by simp⟩
  · rcases hc : codon_pair_iterator (D.annotOf x.1) x.2 (D.alnOf x.1) with e | l <;>
      simp only [hc] at h
    · exact absurd h (by simp)
    · split_ifs at h <;> (cases h; exact ⟨by simp, by simp⟩)

theorem nonsynonymous_per_ok (D : Dicts) (x : String × Aln)
    (r : List (String × Nat) × List (String × List Bed))
    (h : nonsynonymous_per D x = Except.ok r) :
    (∀ e ∈ r.1, e.1 = x.1) ∧ (∀ e ∈ r.2, e.1 = x.1) := by
  simp only [nonsynonymous_per] at h
  rcases hq : D.transcriptItems.lookup x.1 with _ | t <;> simp only [hq] at h
  · cases h; exact ⟨by simp, by simp⟩
  · split_ifs at h with hg
    · cases h; exact ⟨by simp, by simp⟩
    · rcases hc : codon_pair_iterator (D.annotOf x.1) t x.2 with e | l <;>
        simp only [hc] at h
      · exact absurd h (by simp)
      · split_ifs at h <;> (cases h; exact ⟨by simp, by simp⟩)

theorem synonymous_per_ok (D : Dicts) (x : String × Aln)
    (r : List (String × Nat) × List (String × List Bed))
    (h : synonymous_per D x = Except.ok r) :
    (∀ e ∈ r.1, e.1 = x.1) ∧ (∀ e ∈ r.2, e.1 = x.1) := by
  simp only [synonymous_per] at h
  rcases hq : D.transcriptItems.lookup x.1 with _ | t <;> simp only [hq] at h
  · cases h; exact ⟨by simp, by simp⟩
  · split_ifs at h with hg
    · cases h; exact ⟨by simp, by simp⟩
    · rcases hc : codon_pair_iterator (D.annotOf x.1) t x.2 with e | l <;>
        simp only [hc] at h
      · exact absurd h (by simp)
      · split_ifs at h <;> (cases h; exact ⟨by simp, by simp⟩)

theorem frameShift_per_ok (D : Dicts) (x : String × Aln)
    (r : List (String × Nat) × List (String × List Bed))
    (h : frameShift_per D x = Except.ok r) :
    (∀ e ∈ r.1, e.1 = x.1) ∧ (∀ e ∈ r.2, e.1 = x.1) := by
  simp only [frameShift_per] at h
  rcases hq : D.transcriptItems.lookup x.1 with _ | t <;> simp only [hq] at h
  · cases h; exact ⟨by simp, by simp⟩
  · by_cases hg : (D.annotOf x.1).getCdsLength ≤ 75 ∨ t.getCdsLength ≤ 75
    · rw [if_pos hg] at h
      cases h; exact ⟨by simp, by simp⟩
    · rw [if_neg hg] at h
      rcases hfs : frame_shift_iterator (D.annotOf x.1) t x.2 with _ | ⟨f0, fs⟩ <;>
        simp only [hfs] at h
      · cases h; exact ⟨by simp, by simp⟩
      · split_ifs at h <;>
          first
          | exact Except.noConfusion h
          | (cases h
             exact ⟨by intro e he; simp_all, by intro e he; simp_all⟩)

/-- C4: an alignment id whose reference CDS length or target CDS length is
at most 75 nucleotides is entirely absent from the classify map and the
details map of every embedded length-gated rule (CodingInsertions and
CodingDeletions in both mult3 modes, FrameShift, BeginStart, EndStop,
InFrameStop, Nonsynonymous, Synonymous): it is excluded, never scored 0. -/
theorem C4_length_gate_excludes (D : Dicts) (aId : String) (t : Tgt) (m : Option Bool)
    (hl : D.transcriptItems.lookup aId = some t)
    (hnd : (D.transcriptItems.map Prod.fst).Nodup)
    (hgate : (D.annotOf aId).getCdsLength ≤ 75 ∨ t.getCdsLength ≤ 75) :
    (∀ v, (aId, v) ∉ (codingInsertions_run D m).1) ∧
    (∀ e, (aId, e) ∉ (codingInsertions_run D m).2) ∧
    (∀ v, (aId, v) ∉ (codingDeletions_run D m).1) ∧
    (∀ e, (aId, e) ∉ (codingDeletions_run D m).2) ∧
    (∀ v, (aId, v) ∉ (beginStart_run D).1) ∧
    (∀ e, (aId, e) ∉ (beginStart_run D).2) ∧
    (∀ v, (aId, v) ∉ (endStop_run D).1) ∧
    (∀ e, (aId, e) ∉ (endStop_run D).2) ∧
    (∀ c d, frameShift_run D = Except.ok (c, d) →
      (∀ v, (aId, v) ∉ c) ∧ (∀ e, (aId, e) ∉ d)) ∧
    (∀ c d, inFrameStop_run D = Except.ok (c, d) →
      (∀ v, (aId, v) ∉ c) ∧ (∀ e, (aId, e) ∉ d)) ∧
    (∀ c d, nonsynonymous_run D = Except.ok (c, d) →
      (∀ v, (aId, v) ∉ c) ∧ (∀ e, (aId, e) ∉ d)) ∧
    (∀ c d, synonymous_run D = Except.ok (c, d) →
      (∀ v, (aId, v) ∉ c) ∧ (∀ e, (aId, e) ∉ d)) := by
  have hmem := lookup_mem hl
  have htv : ∀ t', (aId, t') ∈ D.transcriptItems → t' = t := fun t' h =>
    keys_nodup_unique hnd h hmem
  have hciempty : ∀ x ∈ D.alignmentItems, x.1 = aId → codingInsertions_per D m x = ([], []) := by
    intro x _ hxa
    exact codingInsertions_per_gate D m x t (by rw [hxa]; exact hl) (by rw [hxa]; exact hgate)
  have hcdempty : ∀ x ∈ D.alignmentItems, x.1 = aId → codingDeletions_per D m x = ([], []) := by
    intro x _ hxa
    exact codingDeletions_per_gate D m x t (by rw [hxa]; exact hl) (by rw [hxa]; exact hgate)
  have hbsempty : ∀ x ∈ D.transcriptItems, x.1 = aId → beginStart_per D x = ([], []) := by
    intro x hx hxa
    obtain ⟨x1, x2⟩ := x
    simp only at hxa
    subst hxa
    have hx2 : x2 = t := htv x2 hx
    subst hx2
    exact beginStart_per_gate D _ hgate
  have hesempty : ∀ x ∈ D.transcriptItems, x.1 = aId → endStop_per D x = ([], []) := by
    intro x hx hxa
    obtain ⟨x1, x2⟩ := x
    simp only at hxa
    subst hxa
    have hx2 : x2 = t := htv x2 hx
    subst hx2
    exact endStop_per_gate D _ hgate
  refine ⟨?_, ?_, ?_, ?_, ?_, ?_, ?_, ?_, ?_, ?_, ?_, ?_⟩
  · have h1 : (codingInsertions_run D m).1 = D.alignmentItems.flatMap
        (fun x => (codingInsertions_per D m x).1) := by
      simp only [codingInsertions_run]
      exact runPure_fst _ _
    rw [h1]
    exact not_mem_flatMap_keyed (fun x _ => (codingInsertions_per_key D m x).1)
      (fun x hx hxa => by rw [hciempty x hx hxa])
  · have h1 : (codingInsertions_run D m).2 = D.alignmentItems.flatMap
        (fun x => (codingInsertions_per D m x).2) := by
      simp only [codingInsertions_run]
      exact runPure_snd _ _
    rw [h1]
    exact not_mem_flatMap_keyed (fun x _ => (codingInsertions_per_key D m x).2)
      (fun x hx hxa => by rw [hciempty x hx hxa])
  · have h1 : (codingDeletions_run D m).1 = D.alignmentItems.flatMap
        (fun x => (codingDeletions_per D m x).1) := by
      simp only [codingDeletions_run]
      exact runPure_fst _ _
    rw [h1]
    exact not_mem_flatMap_keyed (fun x _ => (codingDeletions_per_key D m x).1)
      (fun x hx hxa => by rw [hcdempty x hx hxa])
  · have h1 : (codingDeletions_run D m).2 = D.alignmentItems.flatMap
        (fun x => (codingDeletions_per D m x).2) := by
      simp only [codingDeletions_run]
      exact runPure_snd _ _
    rw [h1]
    exact not_mem_flatMap_keyed (fun x _ => (codingDeletions_per_key D m x).2)
      (fun x hx hxa => by rw [hcdempty x hx hxa])
  · have h1 : (beginStart_run D).1 = D.transcriptItems.flatMap
        (fun x => (beginStart_per D x).1) := by
      simp only [beginStart_run]
      exact runPure_fst _ _
    rw [h1]
    exact not_mem_flatMap_keyed (fun x _ => (beginStart_per_key D x).1)
      (fun x hx hxa => by rw [hbsempty x hx hxa])
  · have h1 : (beginStart_run D).2 = D.transcriptItems.flatMap
        (fun x => (beginStart_per D x).2) := by
      simp only [beginStart_run]
      exact runPure_snd _ _
    rw [h1]
    exact not_mem_flatMap_keyed (fun x _ => (beginStart_per_key D x).2)
      (fun x hx hxa => by rw [hbsempty x hx hxa])
  · have h1 : (endStop_run D).1 = D.transcriptItems.flatMap
        (fun x => (endStop_per D x).1) := by
      simp only [endStop_run]
      exact runPure_fst _ _
    rw [h1]
    exact not_mem_flatMap_keyed (fun x _ => (endStop_per_key D x).1)
      (fun x hx hxa => by rw [hesempty x hx hxa])
  · have h1 : (endStop_run D).2 = D.transcriptItems.flatMap
        (fun x => (endStop_per D x).2) := by
      simp only [endStop_run]
      exact runPure_snd _ _
    rw [h1]
    exact not_mem_flatMap_keyed (fun x _ => (endStop_per_key D x).2)
      (fun x hx hxa => by rw [hesempty x hx hxa])
  · intro c d hrun
    have hspec := runExc_spec D.alignmentItems (frameShift_per D) hrun
    constructor
    · intro v hv
      obtain ⟨x, _, r, hr, he⟩ := hspec.2.1 _ hv
      have hkey := (frameShift_per_ok D x r hr).1 _ he
      have hgat := frameShift_per_gate D x t (by rw [← hkey]; exact hl)
        (by rw [← hkey]; exact hgate)
      rw [hgat] at hr
      cases hr
      exact absurd he (by simp)
    · intro e hv
      obtain ⟨x, _, r, hr, he⟩ := hspec.2.2 _ hv
      have hkey := (frameShift_per_ok D x r hr).2 _ he
      have hgat := frameShift_per_gate D x t (by rw [← hkey]; exact hl)
        (by rw [← hkey]; exact hgate)
      rw [hgat] at hr
      cases hr
      exact absurd he (by simp)
  · intro c d hrun
    have hspec := runExc_spec D.transcriptItems (inFrameStop_per D) hrun
    constructor
    · intro v hv
      obtain ⟨x, hx, r, hr, he⟩ := hspec.2.1 _ hv
      have hkey := (inFrameStop_per_ok D x r hr).1 _ he
      obtain ⟨x1, x2⟩ := x
      simp only at hkey
      subst hkey
      have hx2 : x2 = t := htv x2 hx
      subst hx2
      rw [inFrameStop_per_gate D _ hgate] at hr
      cases hr
      exact absurd he (by simp)
    · intro e hv
      obtain ⟨x, hx, r, hr, he⟩ := hspec.2.2 _ hv
      have hkey := (inFrameStop_per_ok D x r hr).2 _ he
      obtain ⟨x1, x2⟩ := x
      simp only at hkey
      subst hkey
      have hx2 : x2 = t := htv x2 hx
      subst hx2
      rw [inFrameStop_per_gate D _ hgate] at hr
      cases hr
      exact absurd he (by simp)
  · intro c d hrun
    have hspec := runExc_spec D.alignmentItems (nonsynonymous_per D) hrun
    constructor
    · intro v hv
      obtain ⟨x, _, r, hr, he⟩ := hspec.2.1 _ hv
      have hkey := (nonsynonymous_per_ok D x r hr).1 _ he
      have hgat := nonsynonymous_per_gate D x t (by rw [← hkey]; exact hl)
        (by rw [← hkey]; exact hgate)
      rw [hgat] at hr
      cases hr
      exact absurd he (by simp)
    · intro e hv
      obtain ⟨x, _, r, hr, he⟩ := hspec.2.2 _ hv
      have hkey := (nonsynonymous_per_ok D x r hr).2 _ he
      have hgat := nonsynonymous_per_gate D x t (by rw [← hkey]; exact hl)
        (by rw [← hkey]; exact hgate)
      rw [hgat] at hr
      cases hr
      exact absurd he (by simp)
  · intro c d hrun
    have hspec := runExc_spec D.alignmentItems (synonymous_per D) hrun
    constructor
    · intro v hv
      obtain ⟨x, _, r, hr, he⟩ := hspec.2.1 _ hv
      have hkey := (synonymous_per_ok D x r hr).1 _ he
      have hgat := synonymous_per_gate D x t (by rw [← hkey]; exact hl)
        (by rw [← hkey]; exact hgate)
      rw [hgat] at hr
      cases hr
      exact absurd he (by simp)
    · intro e hv
      obtain ⟨x, _, r, hr, he⟩ := hspec.2.2 _ hv
      have hkey := (synonymous_per_ok D x r hr).2 _ he
      have hgat := synonymous_per_gate D x t (by rw [← hkey]; exact hl)
        (by rw [← hkey]; exact hgate)
      rw [hgat] at hr
      cases hr
      exact absurd he (by simp)

/-- C4 witness: the exclusion applied to a concrete dictionary holding one
alignment id with a 3-base CDS, below the 75-base gate. -/
theorem C4_witness :
    ("short-1", 1) ∉ (codingInsertions_run D4 (some false)).1 ∧
    ("short-1", 0) ∉ (beginStart_run D4).1 :=
  ⟨(C4_length_gate_excludes D4 "short-1" tSmall (some false) rfl (by decide)
      (by decide)).1 1,
   (C4_length_gate_excludes D4 "short-1" tSmall (some false) rfl (by decide)
      (by decide)).2.2.2.2.1 0⟩

theorem cdsGap_per_key (x : String × Tgt) :
    (∀ e ∈ (cdsGap_per x).1, e.1 = x.1) ∧ (∀ e ∈ (cdsGap_per x).2, e.1 = x.1) := by
  simp only [cdsGap_per]
  split_ifs <;> constructor <;> intro e he <;> simp_all

theorem unknownBases_per_key (fi : List Char → List (Nat × Nat)) (cds : Bool)
    (x : String × Tgt) :
    (∀ e ∈ (unknownBases_per fi cds x).1, e.1 = x.1) ∧
    (∀ e ∈ (unknownBases_per fi cds x).2, e.1 = x.1) := by
  simp only [unknownBases_per]
  split_ifs <;> constructor <;> intro e he <;> simp_all

theorem codingInsertions_per_d2c (D : Dicts) (m : Option Bool) (x : String × Aln) :
    ∀ e ∈ (codingInsertions_per D m x).2, (x.1, 1) ∈ (codingInsertions_per D m x).1 := by
  intro e he
  rcases hq : D.transcriptItems.lookup x.1 with _ | t <;>
    simp only [codingInsertions_per, hq] at he ⊢
  · simp at he
  · split_ifs at he ⊢ <;> simp_all

theorem codingDeletions_per_d2c (D : Dicts) (m : Option Bool) (x : String × Aln) :
    ∀ e ∈ (codingDeletions_per D m x).2, (x.1, 1) ∈ (codingDeletions_per D m x).1 := by
  intro e he
  rcases hq : D.transcriptItems.lookup x.1 with _ | t <;>
    simp only [codingDeletions_per, hq] at he ⊢
  · simp at he
  · split_ifs at he ⊢ <;> simp_all

theorem beginStart_per_d2c (D : Dicts) (x : String × Tgt) :
    ∀ e ∈ (beginStart_per D x).2, (x.1, 1) ∈ (beginStart_per D x).1 := by
  intro e he
  simp only [beginStart_per] at he ⊢
  split_ifs at he ⊢ <;> simp_all

theorem endStop_per_d2c (D : Dicts) (x : String × Tgt) :
    ∀ e ∈ (endStop_per D x).2, (x.1, 1) ∈ (endStop_per D x).1 := by
  intro e he
  simp only [endStop_per] at he ⊢
  split_ifs at he ⊢ <;> simp_all

theorem cdsGap_per_d2c (x : String × Tgt) :
    ∀ e ∈ (cdsGap_per x).2, (x.1, 1) ∈ (cdsGap_per x).1 := by
  intro e he
  simp only [cdsGap_per] at he ⊢
  split_ifs at he ⊢ <;> simp_all

theorem unknownBases_per_d2c (fi : List Char → List (Nat × Nat)) (cds : Bool)
    (x : String × Tgt) :
    ∀ e ∈ (unknownBases_per fi cds x).2, (x.1, 1) ∈ (unknownBases_per fi cds x).1 := by
  intro e he
  simp only [unknownBases_per] at he ⊢
  split_ifs at he ⊢ <;> simp_all

theorem inFrameStop_per_d2c (D : Dicts) (x : String × Tgt)
    (r : List (String × Nat) × List (String × List Bed))
    (h : inFrameStop_per D x = Except.ok r) : ∀ e ∈ r.2, (x.1, 1) ∈ r.1 := by
  intro e he
  simp only [inFrameStop_per] at h
  split_ifs at h with hg
  · cases h; simp at he
  · rcases hc : codon_pair_iterator (D.annotOf x.1) x.2 (D.alnOf x.1) with er | l <;>
      simp only [hc] at h
    · exact absurd h (by simp)
    · split_ifs at h <;> cases h <;> simp_all

theorem nonsynonymous_per_d2c (D : Dicts) (x : String × Aln)
    (r : List (String × Nat) × List (String × List Bed))
    (h : nonsynonymous_per D x = Except.ok r) : ∀ e ∈ r.2, (x.1, 1) ∈ r.1 := by
  intro e he
  simp only [nonsynonymous_per] at h
  rcases hq : D.transcriptItems.lookup x.1 with _ | t <;> simp only [hq] at h
  · cases h; simp at he
  · split_ifs at h with hg
    · cases h; simp at he
    · rcases hc : codon_pair_iterator (D.annotOf x.1) t x.2 with er | l <;>
        simp only [hc] at h
      · exact absurd h (by simp)
      · split_ifs at h <;> cases h <;> simp_all

theorem synonymous_per_d2c (D : Dicts) (x : String × Aln)
    (r : List (String × Nat) × List (String × List Bed))
    (h : synonymous_per D x = Except.ok r) : ∀ e ∈ r.2, (x.1, 1) ∈ r.1 := by
  intro e he
  simp only [synonymous_per] at h
  rcases hq : D.transcriptItems.lookup x.1 with _ | t <;> simp only [hq] at h
  · cases h; simp at he
  · split_ifs at h with hg
    · cases h; simp at he
    · rcases hc : codon_pair_iterator (D.annotOf x.1) t x.2 with er | l <;>
        simp only [hc] at h
      · exact absurd h (by simp)
      · split_ifs at h <;> cases h <;> simp_all

theorem frameShift_per_d2c (D : Dicts) (x : String × Aln)
    (r : List (String × Nat) × List (String × List Bed))
    (h : frameShift_per D x = Except.ok r) : ∀ e ∈ r.2, (x.1, 1) ∈ r.1 := by
  intro e he
  simp only [frameShift_per] at h
  rcases hq : D.transcriptItems.lookup x.1 with _ | t <;> simp only [hq] at h
  · cases h; simp at he
  · by_cases hg : (D.annotOf x.1).getCdsLength ≤ 75 ∨ t.getCdsLength ≤ 75
    · rw [if_pos hg] at h
      cases h; simp at he
    · rw [if_neg hg] at h
      rcases hfs : frame_shift_iterator (D.annotOf x.1) t x.2 with _ | ⟨f0, fs⟩ <;>
        simp only [hfs] at h
      · cases h; simp at he
      · split_ifs at h <;>
          first
          | exact Except.noConfusion h
          | (cases h; simp_all)

/-- C9: for every embedded classifier rule, an alignment id contributes an
evidence entry to the details map only if the classify map assigns it the
call 1: every details entry is keyed by an id whose classify entry 1 is in
the classify map (CodingInsertions, CodingDeletions, BeginStart, EndStop,
CdsGap, UnknownBases, and, when the run succeeds, FrameShift, InFrameStop,
Nonsynonymous, Synonymous). -/
theorem C9_details_imply_call (D : Dicts) (m : Option Bool)
    (fi : List Char → List (Nat × Nat)) (cds : Bool) :
    (∀ k evs, (k, evs) ∈ (codingInsertions_run D m).2 →
      (k, 1) ∈ (codingInsertions_run D m).1) ∧
    (∀ k evs, (k, evs) ∈ (codingDeletions_run D m).2 →
      (k, 1) ∈ (codingDeletions_run D m).1) ∧
    (∀ k b, (k, b) ∈ (beginStart_run D).2 → (k, 1) ∈ (beginStart_run D).1) ∧
    (∀ k b, (k, b) ∈ (endStop_run D).2 → (k, 1) ∈ (endStop_run D).1) ∧
    (∀ k evs, (k, evs) ∈ (cdsGap_run D).2 → (k, 1) ∈ (cdsGap_run D).1) ∧
    (∀ k evs, (k, evs) ∈ (unknownBases_run D fi cds).2 →
      (k, 1) ∈ (unknownBases_run D fi cds).1) ∧
    (∀ c d k evs, frameShift_run D = Except.ok (c, d) → (k, evs) ∈ d → (k, 1) ∈ c) ∧
    (∀ c d k evs, inFrameStop_run D = Except.ok (c, d) → (k, evs) ∈ d → (k, 1) ∈ c) ∧
    (∀ c d k evs, nonsynonymous_run D = Except.ok (c, d) → (k, evs) ∈ d → (k, 1) ∈ c) ∧
    (∀ c d k evs, synonymous_run D = Except.ok (c, d) → (k, evs) ∈ d → (k, 1) ∈ c) := by
  refine ⟨?_, ?_, ?_, ?_, ?_, ?_, ?_, ?_, ?_, ?_⟩
  · intro k evs hmem'
    have h2 : (codingInsertions_run D m).2 = D.alignmentItems.flatMap
        (fun x => (codingInsertions_per D m x).2) := by
      simp only [codingInsertions_run]
      exact runPure_snd _ _
    have h1 : (codingInsertions_run D m).1 = D.alignmentItems.flatMap
        (fun x => (codingInsertions_per D m x).1) := by
      simp only [codingInsertions_run]
      exact runPure_fst _ _
    rw [h2] at hmem'
    obtain ⟨x, hx, he⟩ := List.mem_flatMap.1 hmem'
    have hk : k = x.1 := (codingInsertions_per_key D m x).2 _ he
    rw [h1, hk]
    exact List.mem_flatMap.2 ⟨x, hx, codingInsertions_per_d2c D m x _ he⟩
  · intro k evs hmem'
    have h2 : (codingDeletions_run D m).2 = D.alignmentItems.flatMap
        (fun x => (codingDeletions_per D m x).2) := by
      simp only [codingDeletions_run]
      exact runPure_snd _ _
    have h1 : (codingDeletions_run D m).1 = D.alignmentItems.flatMap
        (fun x => (codingDeletions_per D m x).1) := by
      simp only [codingDeletions_run]
      exact runPure_fst _ _
    rw [h2] at hmem'
    obtain ⟨x, hx, he⟩ := List.mem_flatMap.1 hmem'
    have hk : k = x.1 := (codingDeletions_per_key D m x).2 _ he
    rw [h1, hk]
    exact List.mem_flatMap.2 ⟨x, hx, codingDeletions_per_d2c D m x _ he⟩
  · intro k b hmem'
    have h2 : (beginStart_run D).2 = D.transcriptItems.flatMap
        (fun x => (beginStart_per D x).2) := by
      simp only [beginStart_run]
      exact runPure_snd _ _
    have h1 : (beginStart_run D).1 = D.transcriptItems.flatMap
        (fun x => (beginStart_per D x).1) := by
      simp only [beginStart_run]
      exact runPure_fst _ _
    rw [h2] at hmem'
    obtain ⟨x, hx, he⟩ := List.mem_flatMap.1 hmem'
    have hk : k = x.1 := (beginStart_per_key D x).2 _ he
    rw [h1, hk]
    exact List.mem_flatMap.2 ⟨x, hx, beginStart_per_d2c D x _ he⟩
  · intro k b hmem'
    have h2 : (endStop_run D).2 = D.transcriptItems.flatMap
        (fun x => (endStop_per D x).2) := by
      simp only [endStop_run]
      exact runPure_snd _ _
    have h1 : (endStop_run D).1 = D.transcriptItems.flatMap
        (fun x => (endStop_per D x).1) := by
      simp only [endStop_run]
      exact runPure_fst _ _
    rw [h2] at hmem'
    obtain ⟨x, hx, he⟩ := List.mem_flatMap.1 hmem'
    have hk : k = x.1 := (endStop_per_key D x).2 _ he
    rw [h1, hk]
    exact List.mem_flatMap.2 ⟨x, hx, endStop_per_d2c D x _ he⟩
  · intro k evs hmem'
    have h2 : (cdsGap_run D).2 = D.transcriptItems.flatMap
        (fun x => (cdsGap_per x).2) := by
      simp only [cdsGap_run]
      exact runPure_snd _ _
    have h1 : (cdsGap_run D).1 = D.transcriptItems.flatMap
        (fun x => (cdsGap_per x).1) := by
      simp only [cdsGap_run]
      exact runPure_fst _ _
    rw [h2] at hmem'
    obtain ⟨x, hx, he⟩ := List.mem_flatMap.1 hmem'
    have hk : k = x.1 := (cdsGap_per_key x).2 _ he
    rw [h1, hk]
    exact List.mem_flatMap.2 ⟨x, hx, cdsGap_per_d2c x _ he⟩
  · intro k evs hmem'
    have h2 : (unknownBases_run D fi cds).2 = D.transcriptItems.flatMap
        (fun x => (unknownBases_per fi cds x).2) := by
      simp only [unknownBases_run]
      exact runPure_snd _ _
    have h1 : (unknownBases_run D fi cds).1 = D.transcriptItems.flatMap
        (fun x => (unknownBases_per fi cds x).1) := by
      simp only [unknownBases_run]
      exact runPure_fst _ _
    rw [h2] at hmem'
    obtain ⟨x, hx, he⟩ := List.mem_flatMap.1 hmem'
    have hk : k = x.1 := (unknownBases_per_key fi cds x).2 _ he
    rw [h1, hk]
    exact List.mem_flatMap.2 ⟨x, hx, unknownBases_per_d2c fi cds x _ he⟩
  · intro c d k evs hrun hmem'
    have hspec := runExc_spec D.alignmentItems (frameShift_per D) hrun
    obtain ⟨x, hx, r, hr, he⟩ := hspec.2.2 _ hmem'
    have hk : k = x.1 := (frameShift_per_ok D x r hr).2 _ he
    obtain ⟨r', hr', hsub⟩ := hspec.1 x hx
    rw [hr] at hr'
    cases hr'
    rw [hk]
    exact hsub.1 _ (frameShift_per_d2c D x r hr _ he)
  · intro c d k evs hrun hmem'
    have hspec := runExc_spec D.transcriptItems (inFrameStop_per D) hrun
    obtain ⟨x, hx, r, hr, he⟩ := hspec.2.2 _ hmem'
    have hk : k = x.1 := (inFrameStop_per_ok D x r hr).2 _ he
    obtain ⟨r', hr', hsub⟩ := hspec.1 x hx
    rw [hr] at hr'
    cases hr'
    rw [hk]
    exact hsub.1 _ (inFrameStop_per_d2c D x r hr _ he)
  · intro c d k evs hrun hmem'
    have hspec := runExc_spec D.alignmentItems (nonsynonymous_per D) hrun
    obtain ⟨x, hx, r, hr, he⟩ := hspec.2.2 _ hmem'
    have hk : k = x.1 := (nonsynonymous_per_ok D x r hr).2 _ he
    obtain ⟨r', hr', hsub⟩ := hspec.1 x hx
    rw [hr] at hr'
    cases hr'
    rw [hk]
    exact hsub.1 _ (nonsynonymous_per_d2c D x r hr _ he)
  · intro c d k evs hrun hmem'
    have hspec := runExc_spec D.alignmentItems (synonymous_per D) hrun
    obtain ⟨x, hx, r, hr, he⟩ := hspec.2.2 _ hmem'
    have hk : k = x.1 := (synonymous_per_ok D x r hr).2 _ he
    obtain ⟨r', hr', hsub⟩ := hspec.1 x hx
    rw [hr] at hr'
    cases hr'
    rw [hk]
    exact hsub.1 _ (synonymous_per_d2c D x r hr _ he)

/-- C9 witness: the CdsGap conjunct applied to a concrete dictionary with
one short coding intron whose evidence entry forces the call 1. -/
theorem C9_witness : ("gap-1", 1) ∈ (cdsGap_run D9).1 :=
  (C9_details_imply_call D9 none (fun _ => []) false).2.2.2.2.1 "gap-1"
    [mkBed 40 50 (colors cAlignment)] (by decide)

/-- C10: InFrameStop discards the last aligned codon pair before scanning
for stop codons, so a gate-passing alignment id none of whose non-final
aligned codons is a stop codon receives call 0 and no evidence, even when
the final aligned codon is a stop. -/
theorem C10_inframe_stop_ignores_last (D : Dicts) (aId : String) (t : Tgt)
    (hmem : (aId, t) ∈ D.transcriptItems)
    (hnd : (D.transcriptItems.map Prod.fst).Nodup)
    (hgate : ¬((D.annotOf aId).getCdsLength ≤ 75 ∨ t.getCdsLength ≤ 75))
    (hnostop : ∀ l, codon_pair_iterator (D.annotOf aId) t (D.alnOf aId) = Except.ok l →
      ∀ p ∈ l.dropLast, codon_to_amino_acid p.2.1 ≠ '*')
    (c : List (String × Nat)) (d : List (String × List Bed))
    (hrun : inFrameStop_run D = Except.ok (c, d)) :
    (aId, 0) ∈ c ∧ ∀ evs, (aId, evs) ∉ d := by
  have hspec := runExc_spec D.transcriptItems (inFrameStop_per D) hrun
  obtain ⟨r, hr, hsub⟩ := hspec.1 (aId, t) hmem
  have hper : inFrameStop_per D (aId, t) = Except.ok ([(aId, 0)], []) := by
    rcases hc : codon_pair_iterator (D.annotOf aId) t (D.alnOf aId) with er | l
    · exfalso
      simp only [inFrameStop_per, if_neg hgate, hc] at hr
      exact Except.noConfusion hr
    · have hh : l.dropLast.filter (fun q => codon_to_amino_acid q.2.1 == '*') = [] := by
        rw [List.filter_eq_nil]
        intro q hq
        have := hnostop l hc q hq
        simpa using this
      simp only [inFrameStop_per, if_neg hgate, hc, hh]
      simp
  rw [hper] at hr
  cases hr
  constructor
  · exact hsub.1 _ (by simp)
  · intro evs hevs
    obtain ⟨x, hx, r2, hr2, he2⟩ := hspec.2.2 _ hevs
    have hk : aId = x.1 := (inFrameStop_per_ok D x r2 hr2).2 _ he2
    obtain ⟨x1, x2⟩ := x
    simp only at hk
    subst hk
    have hx2 : x2 = t := keys_nodup_unique hnd hx hmem
    subst hx2
    rw [hper] at hr2
    cases hr2
    simp at he2

/-- C10 witness: the concrete identity-aligned 78-base CDS whose only stop
codon is the final codon; InFrameStop assigns call 0. -/
theorem C10_witness : ("ifs-1", (0 : Nat)) ∈ ([("ifs-1", 0)] : List (String × Nat)) :=
  (C10_inframe_stop_ignores_last D10 "ifs-1" t10 (by exact List.mem_cons_self _ _)
    (by decide) (by decide)
    (by
      intro l hl p hp
      have hq : ∀ p2 ∈ ((codon_pair_iterator a10 t10 aln10).toOption.getD []).dropLast,
          codon_to_amino_acid p2.2.1 ≠ '*' := by decide
      rw [show codon_pair_iterator (D10.annotOf "ifs-1") t10 (D10.alnOf "ifs-1") =
        codon_pair_iterator a10 t10 aln10 from rfl] at hl
      rw [hl] at hq
      simp only [Except.toOption, Option.getD] at hq
      exact hq p hp)
    [("ifs-1", 0)] [] rfl).1
